import Mathlib

/-!
Verification of the DAP test client (`src/testclient.py`).

The development shallowly embeds the client: Python JSON values become the
mutual inductive `Json`/`JArr`/`JObj` (ints only, as the client never sends
or stores floats), Python `str` becomes `List Char` (the client slices its
receive buffer by *character* counts, so a character-level model is exact),
and the stateful `Client`/`Handler` classes become explicit state records
with `Except`-valued step functions (a raised Python exception becomes
`Except.error`).  Side effects that matter to the claims (socket sends,
waking the waiting caller) are recorded in an explicit trace list in the
order the Python statements execute them.
-/

set_option linter.unusedVariables false

/-!
JSON values as produced by `json.loads` and consumed by `json.dumps`
(restricted to the shapes the DAP client exchanges: null, bool, arbitrary
precision integers, strings, arrays and objects; floats do not occur). The
object constructor keeps insertion order, matching Python dicts.
-/
mutual
inductive Json where
  | null
  | bool (b : Bool)
  | int (n : Int)
  | str (s : String)
  | arr (xs : JArr)
  | obj (kvs : JObj)
deriving Repr
inductive JArr where
  | anil
  | acons (hd : Json) (tl : JArr)
deriving Repr
inductive JObj where
  | onil
  | ocons (k : String) (v : Json) (tl : JObj)
deriving Repr
end

deriving instance DecidableEq for Json, JArr, JObj

/-- Build a `JArr` from a Lean list. -/
def jarr : List Json → JArr
  | [] => .anil
  | x :: xs => .acons x (jarr xs)

/-- Build a `JObj` from a Lean association list. -/
def jobj : List (String × Json) → JObj
  | [] => .onil
  | (k, v) :: kvs => .ocons k v (jobj kvs)

/-- Length of a `JArr`. -/
def JArr.length : JArr → Nat
  | .anil => 0
  | .acons _ tl => 1 + tl.length

/-- Append two `JArr`s. -/
def JArr.append : JArr → JArr → JArr
  | .anil, ys => ys
  | .acons x tl, ys => .acons x (tl.append ys)

/-- First value stored under key `k` in a JSON object (Python `d[k]` /
`d.get(k)`; Python dicts are modelled as ordered association lists whose
keys are unique, and lookup returns the first hit). -/
def JObj.lookup (k : String) : JObj → Option Json
  | .onil => none
  | .ocons k2 v tl => if k2 = k then some v else tl.lookup k

/-- `d[k]` on a JSON value that is expected to be an object; `none` models a
Python `KeyError`/`TypeError` on any other shape. -/
def Json.get (j : Json) (k : String) : Option Json :=
  match j with
  | .obj kvs => kvs.lookup k
  | _ => none

/-- Whether a JSON object has key `k`. -/
def JObj.hasKey (kvs : JObj) (k : String) : Bool :=
  (kvs.lookup k).isSome

/-- Python truthiness of a JSON value (`if not req:` in `handle_response`):
`None`, `False`, `0`, `""`, `[]` and the empty dict are falsy. -/
def Json.truthy : Json → Bool
  | .null => false
  | .bool b => b
  | .int n => n != 0
  | .str s => s ≠ ""
  | .arr .anil => false
  | .arr _ => true
  | .obj .onil => false
  | .obj _ => true

/-- Append two JSON objects (concatenation of their entry lists). -/
def JObj.append : JObj → JObj → JObj
  | .onil, b => b
  | .ocons k v tl, b => .ocons k v (tl.append b)

/-- `a`'s entries in order, with the value replaced by `b`'s whenever `b`
also has the key (first half of the Python dict merge `{**a, **b}`). -/
def JObj.overrideBy : JObj → JObj → JObj
  | .onil, _ => .onil
  | .ocons k v tl, b => .ocons k ((b.lookup k).getD v) (tl.overrideBy b)

/-- Entries of `b` whose key does not occur in `a` (second half of the
Python dict merge `{**a, **b}`). -/
def JObj.dropKeysOf : JObj → JObj → JObj
  | .onil, _ => .onil
  | .ocons k v tl, a => if a.hasKey k then tl.dropKeysOf a else .ocons k v (tl.dropKeysOf a)

/-- The Python dict merge `{**a, **b}` used by `Client.send_request`: keys
of `a` first (values overridden by `b` where present), then keys of `b`
that are new, in `b`'s order. -/
def JObj.merge (a b : JObj) : JObj := (a.overrideBy b).append (b.dropKeysOf a)

/-! ### Decimal rendering and parsing

`serislise_message` interpolates `len(m)` with an f-string and `json.dumps`
renders integers; both produce standard decimal notation, modelled by
`natToStr`/`intToStr` below.  `parse_header` calls `int(...)`, modelled by
`pyIntOfStr`. -/

/-- The decimal digit character for `n < 10`. -/
def digitChar (n : Nat) : Char := Char.ofNat (48 + n)

/-- Fuelled decimal rendering helper (fuel only bounds the recursion depth;
`natToStr` always supplies enough). -/
def natDigitsF : Nat → Nat → List Char
  | 0, _ => []
  | f+1, n => if n < 10 then [digitChar n] else natDigitsF f (n / 10) ++ [digitChar (n % 10)]

/-- Standard decimal rendering of a natural number. -/
def natToStr (n : Nat) : List Char := natDigitsF (n+1) n

/-- Standard decimal rendering of an integer (Python `str`/`json.dumps`). -/
def intToStr (n : Int) : List Char :=
  if n < 0 then '-' :: natToStr n.natAbs else natToStr n.toNat

/-- Numeric value of a decimal digit list. -/
def digitsVal (ds : List Char) : Nat :=
  ds.foldl (fun a c => a * 10 + (c.toNat - 48)) 0

/-- Decimal digit predicate (code points 48-57). -/
def isDigitCh (c : Char) : Bool := 48 ≤ c.toNat && c.toNat ≤ 57

/-- Greedy decimal parse: longest digit run and the value it denotes
(`none` if the input does not start with a digit). -/
def parseNat (l : List Char) : Option (Nat × List Char) :=
  let ds := l.takeWhile isDigitCh
  if ds.isEmpty then none else some (digitsVal ds, l.dropWhile isDigitCh)

/-- Python `int(s)` on an already stripped string: optional sign followed by
at least one digit, consuming the whole string. -/
def pyIntOfStr (l : List Char) : Option Int :=
  match l with
  | [] => none
  | c :: r =>
    if c = '-' then (parseNat r).bind fun p => if p.2.isEmpty then some (-(p.1 : Int)) else none
    else if c = '+' then (parseNat r).bind fun p => if p.2.isEmpty then some ((p.1 : Int)) else none
    else (parseNat (c :: r)).bind fun p => if p.2.isEmpty then some ((p.1 : Int)) else none

/-! ### String escaping (`json.dumps`, default `ensure_ascii=True`) -/

/-- Opening/closing curly brace characters (written numerically). -/
def lcurly : Char := Char.ofNat 123

/-- Closing curly brace character. -/
def rcurly : Char := Char.ofNat 125

/-- Lower-case hexadecimal digit character for `n < 16`. -/
def hexDigitChar (n : Nat) : Char :=
  if n < 10 then Char.ofNat (48 + n) else Char.ofNat (87 + n)

/-- Four-digit lower-case hex rendering of `n < 0x10000`, as in the
`\uXXXX` escapes emitted by `json.dumps`. -/
def hex4 (n : Nat) : List Char :=
  [hexDigitChar (n / 4096 % 16), hexDigitChar (n / 256 % 16),
   hexDigitChar (n / 16 % 16), hexDigitChar (n % 16)]

/-- `json.dumps` escaping of one character (default `ensure_ascii=True`):
backslash, quote and the five short control escapes get two-character
escapes, other characters outside `0x20..0x7e` get `\uXXXX` escapes, with
surrogate pairs above `0xffff`. -/
def escapeChar (c : Char) : List Char :=
  if c = '\"' then ['\\', '\"']
  else if c = '\\' then ['\\', '\\']
  else if c = '\n' then ['\\', 'n']
  else if c = '\r' then ['\\', 'r']
  else if c = '\t' then ['\\', 't']
  else if c.toNat = 8 then ['\\', 'b']
  else if c.toNat = 12 then ['\\', 'f']
  else if 32 ≤ c.toNat ∧ c.toNat ≤ 126 then [c]
  else if c.toNat < 65536 then '\\' :: 'u' :: hex4 c.toNat
  else
    let v := c.toNat - 65536
    ('\\' :: 'u' :: hex4 (55296 + v / 1024)) ++ ('\\' :: 'u' :: hex4 (56320 + v % 1024))

/-- Escape a whole string body. -/
def escapeStr : List Char → List Char
  | [] => []
  | c :: cs => escapeChar c ++ escapeStr cs

/-- The serialized form of a JSON string: quote, escaped body, quote. -/
def dumpStr (s : String) : List Char := '\"' :: escapeStr s.toList ++ ['\"']

/-! ### `json.dumps` (default separators `", "` and `": "`) -/

mutual
/-- Serialization of a JSON value exactly as Python's `json.dumps` renders
it with default options (compact except for a space after `,` and `:`). -/
def dumpsV : Json → List Char
  | .null => "null".toList
  | .bool true => "true".toList
  | .bool false => "false".toList
  | .int n => intToStr n
  | .str s => dumpStr s
  | .arr xs => '[' :: dumpsItems xs ++ [']']
  | .obj kvs => lcurly :: dumpsMembers kvs ++ [rcurly]

/-- Array items joined by `", "`. -/
def dumpsItems : JArr → List Char
  | .anil => []
  | .acons x .anil => dumpsV x
  | .acons x tl => dumpsV x ++ ',' :: ' ' :: dumpsItems tl

/-- Object members `"key": value` joined by `", "`. -/
def dumpsMembers : JObj → List Char
  | .onil => []
  | .ocons k v .onil => dumpStr k ++ ':' :: ' ' :: dumpsV v
  | .ocons k v tl => dumpStr k ++ ':' :: ' ' :: dumpsV v ++ ',' :: ' ' :: dumpsMembers tl
end

example : dumpsV (.obj (jobj [("seq", .int 2), ("ok", .bool true)]))
    = lcurly :: "\"seq\": 2, \"ok\": true".toList ++ [rcurly] := by decide
example : dumpsV (.arr (jarr [.int (-3), .str "a b", .null]))
    = "[-3, \"a b\", null]".toList := by decide

/-! ### `json.loads`

A recursive-descent model of Python's `json.loads` restricted to the value
shapes of `Json` (no floats; `\uXXXX` escapes are decoded, surrogate pairs
combined — lone surrogates, which Lean's `Char` cannot represent and which
never appear in `json.dumps` output, are rejected).  Whitespace is skipped
at token boundaries as in the Python scanner; unescaped control characters
inside strings are rejected (`strict=True`). -/

/-- JSON whitespace (the Python scanner's `' \t\n\r'`). -/
def jsonWs (c : Char) : Bool := c = ' ' || c = '\t' || c = '\n' || c = '\r'

/-- Skip JSON whitespace. -/
def skipWs (l : List Char) : List Char := l.dropWhile jsonWs

/-- Numeric value of a hexadecimal digit character, if any. -/
def hexVal (c : Char) : Option Nat :=
  if 48 ≤ c.toNat ∧ c.toNat ≤ 57 then some (c.toNat - 48)
  else if 97 ≤ c.toNat ∧ c.toNat ≤ 102 then some (c.toNat - 87)
  else if 65 ≤ c.toNat ∧ c.toNat ≤ 70 then some (c.toNat - 55)
  else none

/-- Prepend a decoded character to a string-parse result. -/
def pushChar (c : Char) : Option (List Char × List Char) → Option (List Char × List Char)
  | some (cs, rest) => some (c :: cs, rest)
  | none => none

/-- Parse four hexadecimal digits into their value. -/
def parseHex4 : List Char → Option (Nat × List Char)
  | a :: b :: c :: d :: r =>
    (match hexVal a, hexVal b, hexVal c, hexVal d with
     | some x1, some x2, some x3, some x4 => some (((x1 * 16 + x2) * 16 + x3) * 16 + x4, r)
     | _, _, _, _ => none)
  | _ => none

/-- Decode one `\uXXXX` escape (after the `\u`), combining surrogate
pairs; lone surrogates are rejected. -/
def parseUEsc (r : List Char) : Option (Char × List Char) :=
  match parseHex4 r with
  | none => none
  | some (n, r2) =>
    if 55296 ≤ n ∧ n ≤ 56319 then
      (match r2 with
       | b1 :: b2 :: r3 =>
         if b1 = '\\' ∧ b2 = 'u' then
           (match parseHex4 r3 with
            | none => none
            | some (m, r4) =>
              if 56320 ≤ m ∧ m ≤ 57343 then
                some (Char.ofNat (65536 + (n - 55296) * 1024 + (m - 56320)), r4)
              else none)
         else none
       | _ => none)
    else if 56320 ≤ n ∧ n ≤ 57343 then none
    else some (Char.ofNat n, r2)

/-- Fuelled worker parsing a JSON string body after the opening quote,
returning the decoded characters and the input after the closing quote.
Each step consumes at least one character, so the wrapper's
`length + 1` fuel always suffices. -/
def parseStrBodyF : Nat → List Char → Option (List Char × List Char)
  | 0, _ => none
  | _+1, [] => none
  | f+1, c :: rest =>
    if c = '\"' then some ([], rest)
    else if c = '\\' then
      match rest with
      | [] => none
      | e :: r =>
        if e = '\"' then pushChar '\"' (parseStrBodyF f r)
        else if e = '\\' then pushChar '\\' (parseStrBodyF f r)
        else if e = '/' then pushChar '/' (parseStrBodyF f r)
        else if e = 'b' then pushChar (Char.ofNat 8) (parseStrBodyF f r)
        else if e = 'f' then pushChar (Char.ofNat 12) (parseStrBodyF f r)
        else if e = 'n' then pushChar '\n' (parseStrBodyF f r)
        else if e = 'r' then pushChar '\r' (parseStrBodyF f r)
        else if e = 't' then pushChar '\t' (parseStrBodyF f r)
        else if e = 'u' then
          match parseUEsc r with
          | none => none
          | some (ch, r2) => pushChar ch (parseStrBodyF f r2)
        else none
    else if c.toNat < 32 then none
    else pushChar c (parseStrBodyF f rest)

/-- Parse a JSON string body after the opening quote (lone surrogate
escapes, which Lean's `Char` cannot represent and `json.dumps` never
emits, are rejected; unescaped control characters are rejected as in
Python's `strict=True`). -/
def parseStrBody (l : List Char) : Option (List Char × List Char) :=
  parseStrBodyF (l.length + 1) l

/-- Parse a JSON integer literal (optional minus, digit run). -/
def parseIntLit (l : List Char) : Option (Int × List Char) :=
  match l with
  | [] => none
  | c :: r =>
    if c = '-' then (parseNat r).map fun p => (-(p.1 : Int), p.2)
    else (parseNat (c :: r)).map fun p => ((p.1 : Int), p.2)

mutual
/-- Parse one JSON value (fuelled; `jsonLoads` supplies sufficient fuel). -/
def parseVal : Nat → List Char → Option (Json × List Char)
  | 0, _ => none
  | f+1, l =>
    let l2 := skipWs l
    match l2 with
    | [] => none
    | c :: r =>
      if c = '\"' then (parseStrBody r).map fun p => (.str (String.mk p.1), p.2)
      else if c = lcurly then
        match skipWs r with
        | [] => none
        | c2 :: r2 =>
          if c2 = rcurly then some (.obj .onil, r2)
          else (parseMembers f (c2 :: r2)).map fun p => (.obj p.1, p.2)
      else if c = '[' then
        match skipWs r with
        | [] => none
        | c2 :: r2 =>
          if c2 = ']' then some (.arr .anil, r2)
          else (parseItems f (c2 :: r2)).map fun p => (.arr p.1, p.2)
      else if l2.take 4 = ['n', 'u', 'l', 'l'] then some (.null, l2.drop 4)
      else if l2.take 4 = ['t', 'r', 'u', 'e'] then some (.bool true, l2.drop 4)
      else if l2.take 5 = ['f', 'a', 'l', 's', 'e'] then some (.bool false, l2.drop 5)
      else (parseIntLit l2).map fun p => (.int p.1, p.2)

/-- Parse the members of a nonempty JSON object, consuming the closing
brace. -/
def parseMembers : Nat → List Char → Option (JObj × List Char)
  | 0, _ => none
  | f+1, l =>
    match skipWs l with
    | [] => none
    | c :: r =>
      if c = '\"' then
        match parseStrBody r with
        | none => none
        | some (k, r2) =>
          match skipWs r2 with
          | [] => none
          | c2 :: r3 =>
            if c2 = ':' then
              match parseVal f r3 with
              | none => none
              | some (v, r4) =>
                match skipWs r4 with
                | [] => none
                | c3 :: r5 =>
                  if c3 = ',' then
                    (parseMembers f r5).map fun p => (.ocons (String.mk k) v p.1, p.2)
                  else if c3 = rcurly then some (.ocons (String.mk k) v .onil, r5)
                  else none
            else none
      else none

/-- Parse the items of a nonempty JSON array, consuming the closing
bracket. -/
def parseItems : Nat → List Char → Option (JArr × List Char)
  | 0, _ => none
  | f+1, l =>
    match parseVal f l with
    | none => none
    | some (v, r) =>
      match skipWs r with
      | [] => none
      | c :: r2 =>
        if c = ',' then (parseItems f r2).map fun p => (.acons v p.1, p.2)
        else if c = ']' then some (.acons v .anil, r2)
        else none
end

/-- Python `json.loads`: parse one value and require that only whitespace
remains. -/
def jsonLoads (l : List Char) : Option Json :=
  match parseVal (l.length + 1) l with
  | some (v, rest) => if (skipWs rest).isEmpty then some v else none
  | none => none

example : jsonLoads (dumpsV (.obj (jobj [("seq", .int 2), ("ok", .bool true),
    ("xs", .arr (jarr [.int (-3), .str "a b", .null]))])))
    = some (.obj (jobj [("seq", .int 2), ("ok", .bool true),
    ("xs", .arr (jarr [.int (-3), .str "a b", .null]))])) := by decide
example : jsonLoads (dumpsV (.str "q\"w\\e\n\tx")) = some (.str "q\"w\\e\n\tx") := by decide

/-! ### Framing codec

`serislise_message` (testclient.py:59) and the streaming decode loop of
`Client.receive_message` (testclient.py:458).  Python `str` is `List Char`;
the `Content-Length` header counts characters of the JSON body — exactly
what `len(m)` computes and exactly how `receive_message` slices its decoded
buffer, so the model is faithful at the character level. -/

/-- The `"\r\n"` separator. -/
def crlf : List Char := ['\r', '\n']

/-- Python `s.split(sep, 1)`: split at the first occurrence of `sep`, or
`none` if `sep` does not occur. -/
def splitOnce (sep : List Char) : List Char → Option (List Char × List Char)
  | [] => none
  | c :: t =>
    if sep.isPrefixOf (c :: t) then some ([], (c :: t).drop sep.length)
    else (splitOnce sep t).map fun p => (c :: p.1, p.2)

/-- Python `s.split("\r\n", 2)` unpacked into three parts (`none` models
the `ValueError` of unpacking fewer than three). -/
def splitTwice (sep : List Char) (l : List Char) : Option (List Char × List Char × List Char) :=
  (splitOnce sep l).bind fun p =>
    (splitOnce sep p.2).map fun q => (p.1, q.1, q.2)

/-- Python whitespace for `str.strip` (the characters `str.strip` removes
that can occur in this protocol). -/
def pyWs (c : Char) : Bool :=
  c = ' ' || c = '\t' || c = '\n' || c = '\r' || c = '\x0b' || c = '\x0c'

/-- Python `s.strip()`. -/
def pyStrip (l : List Char) : List Char :=
  ((l.dropWhile pyWs).reverse.dropWhile pyWs).reverse

/-- A successful split consumes the separator, so the right part is
shorter than the input (for nonempty separators). -/
theorem splitOnce_sub : ∀ (sep l : List Char) (p : List Char × List Char),
    splitOnce sep l = some p → p.2.length + sep.length ≤ l.length := by
  intro sep l
  induction l with
  | nil => intro p h; simp [splitOnce] at h
  | cons c t ih =>
    intro p h
    simp only [splitOnce] at h
    by_cases hp : sep.isPrefixOf (c :: t) = true
    · simp [hp] at h
      subst h
      simp only [List.length_drop, List.length_cons]
      have := List.IsPrefix.length_le (List.isPrefixOf_iff_prefix.mp hp)
      simp at this
      omega
    · simp [hp] at h
      obtain ⟨a1, b1, hs, hp2⟩ := h
      have := ih (a1, b1) hs
      subst hp2
      simp only [List.length_cons]
      simp at this ⊢
      omega

/-- Fuelled worker for `splitAllColon` (`splitAllColon` always supplies
sufficient fuel, since every split consumes at least one character). -/
def splitAllColonF : Nat → List Char → List (List Char)
  | 0, l => [l]
  | f+1, l =>
    match splitOnce [':'] l with
    | none => [l]
    | some (a, b) => a :: splitAllColonF f b

/-- Python `s.split(":")` (all occurrences). -/
def splitAllColon (l : List Char) : List (List Char) :=
  splitAllColonF (l.length + 1) l

/-- Exceptions the decode path can raise. -/
inductive DecErr where
  | assertionError
  | headerValueError
  | headerAssertionError
  | invalidLength
  | bodyError
  | outOfFuel
deriving Repr, DecidableEq

/-- `parse_header` (testclient.py:431): split on `":"`, require exactly two
parts (else the tuple unpacking raises `ValueError`), assert the stripped
key is `Content-Length`, convert the stripped value with `int(...)`. -/
def parse_header (h : List Char) : Except DecErr Int :=
  match splitAllColon h with
  | [k, v] =>
    if pyStrip k = "Content-Length".toList then
      match pyIntOfStr (pyStrip v) with
      | some n => .ok n
      | none => .error .headerValueError
    else .error .headerAssertionError
  | _ => .error .headerValueError

/-- Outcome of one `receive_message` call: the messages yielded by the
generator in order, and either the residual buffer kept in `self.buf` or
the exception that escaped (messages yielded before the exception were
already delivered — generator semantics). -/
inductive DecodeOut where
  | ok (msgs : List Json) (buf : List Char)
  | err (msgs : List Json) (e : DecErr)
deriving Repr, DecidableEq

/-- Prepend a yielded message to a decode outcome. -/
def prependMsg (m : Json) : DecodeOut → DecodeOut
  | .ok l b => .ok (m :: l) b
  | .err l e => .err (m :: l) e

/-- A successful split decomposes the input around the separator. -/
theorem splitOnce_eq : ∀ (sep l : List Char) (p : List Char × List Char),
    splitOnce sep l = some p → l = p.1 ++ sep ++ p.2 := by
  intro sep l
  induction l with
  | nil => intro p h; simp [splitOnce] at h
  | cons c t ih =>
    intro p h
    simp only [splitOnce] at h
    by_cases hp : sep.isPrefixOf (c :: t) = true
    · simp [hp] at h
      subst h
      obtain ⟨u, hu⟩ := List.isPrefixOf_iff_prefix.mp hp
      conv_lhs => rw [← hu]
      simp [← hu]
    · simp [hp] at h
      obtain ⟨a1, b1, hs, hp2⟩ := h
      have := ih (a1, b1) hs
      subst hp2
      simp at this ⊢
      exact this

/-- A successful three-way split decomposes the input around the two
separators. -/
theorem splitTwice_eq (sep l : List Char) (a b c : List Char)
    (h : splitTwice sep l = some (a, b, c)) : l = a ++ sep ++ b ++ sep ++ c := by
  simp only [splitTwice, Option.bind_eq_some, Option.map_eq_some'] at h
  obtain ⟨p, hp, q, hq, hEq⟩ := h
  have h1 := splitOnce_eq sep l p hp
  have h2 := splitOnce_eq sep p.2 q hq
  cases hEq
  simp [h1, h2]

/-- One iteration of the `while True` loop in `Client.receive_message`
(fuelled; the wrapper supplies `length + 1`, which always suffices because
every completed frame consumes at least one character).  Semantics of the
source loop: a failed three-way split or a short body leaves the buffer
untouched and breaks; a parsed header with non-positive length, or an
undecodable body, raises; otherwise the body is decoded with `json.loads`,
yielded, and the loop continues on the remainder. -/
def recvLoop : Nat → List Char → DecodeOut
  | 0, _ => .err [] .outOfFuel
  | f+1, buf =>
    match splitTwice crlf buf with
    | none => .ok [] buf
    | some (hdr, _mid, rest) =>
      match parse_header hdr with
      | .error e => .err [] e
      | .ok n =>
        if n ≤ 0 then .err [] .invalidLength
        else if rest.length < n.toNat then .ok [] buf
        else
          match jsonLoads (rest.take n.toNat) with
          | none => .err [] .bodyError
          | some m => prependMsg m (recvLoop f (rest.drop n.toNat))

/-- `Client.receive_message` (testclient.py:458): append the received chunk
to the carried buffer, assert that the buffer starts with
`Content-Length` (an `AssertionError` escapes the generator otherwise), and
run the extraction loop. -/
def receive_message (carried chunk : List Char) : DecodeOut :=
  let buf := carried ++ chunk
  if ("Content-Length".toList).isPrefixOf buf then recvLoop (buf.length + 1) buf
  else .err [] .assertionError

/-- `serislise_message` (testclient.py:59): `json.dumps` the message, then
`"\r\n".join([f"Content-Length: {n}", "", m])` where `n = len(m)` counts
characters. -/
def serislise_message (msg : Json) : List Char :=
  let m := dumpsV msg
  "Content-Length: ".toList ++ natToStr m.length ++ crlf ++ crlf ++ m

example : receive_message [] (serislise_message (.obj (jobj [("seq", .int 1), ("type", .str "event"), ("event", .str "stopped")])))
    = .ok [.obj (jobj [("seq", .int 1), ("type", .str "event"), ("event", .str "stopped")])] [] := by decide
example : receive_message [] ((serislise_message (.obj (jobj [("seq", .int 1)]))).take 2)
    = .err [] .assertionError := by decide
example : receive_message [] ((serislise_message (.obj (jobj [("seq", .int 1)]))).take 20)
    = .ok [] ((serislise_message (.obj (jobj [("seq", .int 1)]))).take 20) := by decide

/-! ### Data model of the handler (testclient.py:74-139)

Integer-valued identifiers (thread ids, frame ids, variables references)
are modelled as `Int` and the dataclass fields follow the source's own type
annotations (`ThreadId = int`, `StackFrame.id: int`, `Scope.expensive:
bool`, ...); a DAP body carrying a differently-typed value where the code
indexes a dict or compares with `>` would raise `TypeError`/`KeyError` in
Python and maps to the generic `keyError`/`typeError` below. -/

/-- `ThreadStatus` (testclient.py:74). -/
inductive ThreadStatus where
  | started
  | exited
deriving Repr, DecidableEq

/-- `StackFrameSource` (testclient.py:96). -/
structure StackFrameSource where
  path : String
deriving Repr, DecidableEq

/-- `StackFrame` (testclient.py:79). -/
structure StackFrame where
  id : Int
  name : String
  line : Int
  column : Int
  source : StackFrameSource
deriving Repr, DecidableEq

/-- `Scope` (testclient.py:104). -/
structure Scope where
  variables_reference : Int
  name : String
  expensive : Bool
deriving Repr, DecidableEq

/-- `Variable` (testclient.py:111). -/
structure Variable where
  name : String
  value : String
  typ : String
deriving Repr, DecidableEq

/-- Python exceptions the handler can raise. -/
inductive PyErr where
  | keyError
  | typeError
  | valueError
  | runtimeError
  | attributeError
  | systemExit
deriving Repr, DecidableEq

/-- Externally visible effects, recorded in program order: a message
written to the socket, the waiting caller's `Event` being set, a print to
stdout/stderr. -/
inductive Effect where
  | sendMsg (m : Json)
  | signalCaller
  | printOut (o : Json)
  | printErr (o : Json)
deriving Repr, DecidableEq

/-- The `Client` (testclient.py:437): the outbound `seq` counter (starts at
1), the log of transmitted messages in order, and whether the socket is
open. -/
structure ClientState where
  seq : Int
  sent : List Json
  sockOpen : Bool
deriving Repr, DecidableEq

/-- The mutable state of `Handler` (testclient.py:118-139) plus the
`Client` it owns and the effect trace.  Python dicts keyed by ints become
ordered association lists (`dictInsert`/`dictErase` below reproduce dict
update semantics); `wait_event` is `none` before `wait_for_connect`
creates the `Event` and `some b` afterwards with `b` its is-set flag. -/
structure HandlerState where
  client : ClientState
  awaiting_response : List (Int × Json)
  capabilities : Json
  ready : Bool
  hInitialized : Bool
  current_thread : Option Int
  thread_status : List (Int × ThreadStatus)
  stack_frames : List (Int × Option (List StackFrame))
  scopes : List (Int × List Scope)
  varsByRef : List (Int × List Variable)
  wait_event : Option Bool
  trace : List Effect
deriving Repr, DecidableEq

/-- Python dict assignment `d[k] = v`: replace in place if the key exists,
else append. -/
def dictInsert {α : Type} (l : List (Int × α)) (k : Int) (v : α) : List (Int × α) :=
  if (l.lookup k).isSome then l.map (fun kv => if kv.1 = k then (k, v) else kv)
  else l ++ [(k, v)]

/-- Python `d.pop(k, None)`'s effect on the dict: remove the key if
present. -/
def dictErase {α : Type} (l : List (Int × α)) (k : Int) : List (Int × α) :=
  l.filter (fun kv => !(kv.1 == k))

/-- `defaultdict(list)` append `d[k].append(v)`: creates the empty entry on
first access. -/
def ddAppend (l : List (Int × List Variable)) (k : Int) (v : Variable) :
    List (Int × List Variable) :=
  match l.lookup k with
  | some vs => dictInsert l k (vs ++ [v])
  | none => l ++ [(k, [v])]

/-- A fresh `Client` after `__init__` (testclient.py:438). -/
def initClient : ClientState := ⟨1, [], true⟩

/-- A fresh `Handler` after `__init__` (testclient.py:126). -/
def initHandler : HandlerState :=
  { client := initClient, awaiting_response := [], capabilities := .obj .onil,
    ready := false, hInitialized := false, current_thread := none,
    thread_status := [], stack_frames := [], scopes := [], varsByRef := [],
    wait_event := none, trace := [] }

/-- `Client.send_request` (testclient.py:444): build
`{**msg, **{"seq": self.seq, "type": "request"}}`, transmit it, bump the
counter, return the full message. -/
def ClientState.send_request (c : ClientState) (msg : JObj) : ClientState × Json :=
  let full := Json.obj (msg.merge (jobj [("seq", .int c.seq), ("type", .str "request")]))
  ({ c with seq := c.seq + 1, sent := c.sent ++ [full] }, full)

/-- The common body of every `Handler.send_*` method:
`sent_message = self.client.send_request(msg)` followed by
`self.awaiting_response[sent_message["seq"]] = sent_message`.  The fallback
branch is unreachable because `send_request` always sets an integer
`"seq"`. -/
def hsendAux (s : HandlerState) (pr : ClientState × Json) : HandlerState :=
  match pr.2.get "seq" with
  | some (.int k) =>
    { s with client := pr.1, trace := s.trace ++ [.sendMsg pr.2],
             awaiting_response := dictInsert s.awaiting_response k pr.2 }
  | _ => { s with client := pr.1, trace := s.trace ++ [.sendMsg pr.2] }

/-- See `hsendAux`: send the message, record it in the trace, and file it
in `awaiting_response` under its assigned `seq`. -/
def hsend (s : HandlerState) (msg : JObj) : HandlerState :=
  hsendAux s (s.client.send_request msg)

/-- `Handler.send_initialize` (testclient.py:288). -/
def send_init (s : HandlerState) : HandlerState :=
  hsend s (jobj [("command", .str "initialize"),
    ("arguments", .obj (jobj [("adapterID", .str "dap-gui"),
      ("clientName", .str "DAP GUI"), ("pathFormat", .str "path"),
      ("supportsRunInTerminalRequest", .bool false),
      ("supportsStartDebuggingRequest", .bool false)]))])

/-- `Handler.send_disconnect` (testclient.py:303). -/
def send_disconnect (s : HandlerState) : HandlerState :=
  hsend s (jobj [("command", .str "disconnect"), ("terminateDebuggee", .bool true)])

/-- `Handler.send_variables` (testclient.py:311). -/
def send_variables (s : HandlerState) (variables_reference : Int) : HandlerState :=
  hsend s (jobj [("command", .str "variables"),
    ("arguments", .obj (jobj [("variablesReference", .int variables_reference)]))])

/-- `Handler.send_stack_trace` (testclient.py:319). -/
def send_stack_trace (s : HandlerState) (thread_id : Int) : HandlerState :=
  hsend s (jobj [("command", .str "stackTrace"),
    ("arguments", .obj (jobj [("threadId", .int thread_id)]))])

/-- `Handler.send_scopes` (testclient.py:329). -/
def send_scopes (s : HandlerState) (frame : StackFrame) : HandlerState :=
  hsend s (jobj [("command", .str "scopes"),
    ("arguments", .obj (jobj [("frameId", .int frame.id)]))])

/-- `Handler.configuration_done` (testclient.py:339). -/
def configuration_done (s : HandlerState) : HandlerState :=
  hsend s (jobj [("command", .str "configurationDone")])

/-- `Handler.send_threads` (testclient.py:346). -/
def send_threads (s : HandlerState) : HandlerState :=
  hsend s (jobj [("command", .str "threads")])

/-- `Handler.send_attach` (testclient.py:353) — note the literal
`"seq": 2` and `"type": "request"` entries in the message template, which
`send_request`'s dict merge overrides. -/
def send_attach (s : HandlerState) : HandlerState :=
  hsend s (jobj [("command", .str "attach"),
    ("arguments", .obj (jobj [
      ("name", .str "Python: Remote Attach (ext)"),
      ("type", .str "python"),
      ("request", .str "attach"),
      ("connect", .obj (jobj [("host", .str "localhost"), ("port", .int 5678)])),
      ("pathMappings", .arr (jarr [.obj (jobj [
        ("localRoot", .str "/home/simon/work/localstack/localstack-ext/localstack_ext"),
        ("remoteRoot", .str "/opt/code/localstack/.venv/lib/python3.10/site-packages/localstack_ext")])])),
      ("justMyCode", .bool false),
      ("__configurationTarget", .int 6),
      ("clientOS", .str "unix"),
      ("debugOptions", .arr (jarr [.str "DebugStdLib", .str "RedirectOutput", .str "ShowReturnValue"])),
      ("showReturnValue", .bool true),
      ("workspaceFolder", .str "/home/simon/work/localstack/localstack-ext"),
      ("__sessionId", .str "e4998b67-23f8-4ab0-adee-a14556f1ce01")])),
    ("type", .str "request"),
    ("seq", .int 2)])

/-- `Handler.send_continue` (testclient.py:391): the continue request uses
`self.current_thread` (JSON `null` while no thread is recorded) and clears
it after sending. -/
def send_continue (s : HandlerState) : HandlerState :=
  let tj : Json := match s.current_thread with
    | some t => .int t
    | none => .null
  let s2 := hsend s (jobj [("command", .str "continue"),
    ("arguments", .obj (jobj [("threadId", tj)]))])
  { s2 with current_thread := none }

/-- `Handler.set_breakpoints` (testclient.py:402). -/
def set_breakpoints (s : HandlerState) : HandlerState :=
  hsend s (jobj [("command", .str "setBreakpoints"),
    ("arguments", .obj (jobj [
      ("source", .obj (jobj [("name", .str "mapping.py"),
        ("path", .str "/home/simon/work/localstack/localstack-ext/localstack_ext/services/appsync/mapping.py")])),
      ("lines", .arr (jarr [.int 114])),
      ("breakpoints", .arr (jarr [.obj (jobj [("line", .int 114)])])),
      ("sourceModified", .bool false)]))])

/-- `Handler.set_function_breakpoints` (testclient.py:418). -/
def set_function_breakpoints (s : HandlerState) : HandlerState :=
  hsend s (jobj [("command", .str "setFunctionBreakpoints"),
    ("arguments", .obj (jobj [
      ("breakpoints", .arr (jarr [.obj (jobj [("name", .str "main")])]))]))])

/-! `launch` (testclient.py:381) is omitted from the model: its `program`
argument depends on `os.getcwd()` and no claim concerns it. -/

/-- Convert a `JArr` to a Lean list (Python iteration order). -/
def JArr.toList : JArr → List Json
  | .anil => []
  | .acons x tl => x :: tl.toList

/-- The `Response` TypedDict (testclient.py:47): the fields
`handle_response` reads. -/
structure Response where
  seq : Int
  request_seq : Int
  success : Bool
  command : String
  body : Json
deriving Repr, DecidableEq

/-- `Handler.clear_awaiting` (testclient.py:250):
`self.awaiting_response.pop(response["request_seq"], None)`. -/
def clear_awaiting (s : HandlerState) (res : Response) : HandlerState :=
  { s with awaiting_response := dictErase s.awaiting_response res.request_seq }

/-- `StackFrame.from_raw` (testclient.py:87): project `source.path`, `id`,
`name`, `line`, `column` out of the raw frame (missing keys raise
`KeyError`; the fields are typed per the dataclass annotations). -/
def StackFrame.from_raw (raw : Json) : Except PyErr StackFrame :=
  match raw.get "source" with
  | none => .error .keyError
  | some src =>
    match src.get "path" with
    | some (.str p) =>
      match raw.get "id", raw.get "name", raw.get "line", raw.get "column" with
      | some (.int i), some (.str nm), some (.int ln), some (.int col) =>
        .ok ⟨i, nm, ln, col, ⟨p⟩⟩
      | _, _, _, _ => .error .keyError
    | _ => .error .keyError

/-- The `threads` response loop (testclient.py:185): for each reported
thread, mark its stack as pending (`None`) and request its stack trace. -/
def threadsLoop (s : HandlerState) : List Json → Except PyErr HandlerState
  | [] => .ok s
  | t :: ts =>
    match t.get "id" with
    | some (.int tid) =>
      let s2 := { s with stack_frames := dictInsert s.stack_frames tid none }
      threadsLoop (send_stack_trace s2 tid) ts
    | _ => .error .keyError

/-- The `stackTrace` response loop (testclient.py:196): reconstruct each
frame, request its scopes, and collect the frames in adapter order. -/
def framesLoop (s : HandlerState) : List Json → Except PyErr (HandlerState × List StackFrame)
  | [] => .ok (s, [])
  | raw :: rest =>
    match StackFrame.from_raw raw with
    | .error e => .error e
    | .ok fr =>
      (framesLoop (send_scopes s fr) rest).map fun p => (p.1, fr :: p.2)

/-- The `scopes` response loop (testclient.py:207): collect the scopes in
order and request variables for every non-expensive scope with a positive
variables reference. -/
def scopesLoop (s : HandlerState) : List Json → Except PyErr (HandlerState × List Scope)
  | [] => .ok (s, [])
  | raw :: rest =>
    match raw.get "variablesReference", raw.get "name", raw.get "expensive" with
    | some (.int vr), some (.str nm), some (.bool ex) =>
      let s2 := if vr > 0 ∧ ex = false then send_variables s vr else s
      (scopesLoop s2 rest).map fun p => (p.1, (⟨vr, nm, ex⟩ : Scope) :: p.2)
    | _, _, _ => .error .keyError

/-- The `variables` response loop (testclient.py:223): a structured
variable (`variablesReference > 0`) executes a bare `return`, ending
`handle_response` and skipping every remaining variable in the body; a
plain variable is appended to `self.variables[ref-of-request]`; a variable
without a `variablesReference` key makes `variable.get(...)` return `None`
and `None > 0` raises `TypeError`. -/
def varsLoop (s : HandlerState) (req : Json) (res : Response) :
    List Json → Except PyErr HandlerState
  | [] => .ok s
  | raw :: rest =>
    match raw.get "variablesReference" with
    | some (.int ref) =>
      if ref > 0 then .ok s
      else
        match raw.get "name", raw.get "value", raw.get "type" with
        | some (.str nm), some (.str vl), some (.str ty) =>
          match req.get "arguments" with
          | some args =>
            match args.get "variablesReference" with
            | some (.int vref) =>
              let s2 := { s with varsByRef := ddAppend s.varsByRef vref ⟨nm, vl, ty⟩ }
              varsLoop (clear_awaiting s2 res) req res rest
            | _ => .error .keyError
          | none => .error .keyError
        | _, _, _ => .error .keyError
    | some _ => .error .typeError
    | none => .error .typeError

/-- `Handler.handle_response` (testclient.py:162).  In source order: pop the
pending request (`return` silently if the key is unknown or the entry is
falsy), raise `RuntimeError` on any failed response, then dispatch on the
response's `command`; an unhandled command falls through the `match`
silently.  The `disconnect` arm closes the socket and raises
`SystemExit(0)`, modelled as the `systemExit` error. -/
def handle_response (s : HandlerState) (res : Response) : Except PyErr HandlerState :=
  let req? := s.awaiting_response.lookup res.request_seq
  let s1 := { s with awaiting_response := dictErase s.awaiting_response res.request_seq }
  match req? with
  | none => .ok s1
  | some req =>
    if req.truthy = false then .ok s1
    else if res.success = false then .error .runtimeError
    else
      match res.command with
      | "initialize" =>
        let s2 := { s1 with capabilities := res.body }
        .ok (send_attach (clear_awaiting s2 res))
      | "setFunctionBreakpoints" => .ok (configuration_done s1)
      | "threads" =>
        match res.body.get "threads" with
        | some (.arr ts) => threadsLoop { s1 with stack_frames := [] } ts.toList
        | some _ => .error .typeError
        | none => .error .keyError
      | "stackTrace" =>
        match res.body.get "stackFrames" with
        | some (.arr raws) =>
          (framesLoop s1 raws.toList).bind fun p =>
            match req.get "arguments" with
            | some args =>
              match args.get "threadId" with
              | some (.int tid) =>
                .ok { p.1 with stack_frames := dictInsert p.1.stack_frames tid (some p.2) }
              | _ => .error .keyError
            | none => .error .keyError
        | some _ => .error .typeError
        | none => .error .keyError
      | "scopes" =>
        match res.body.get "scopes" with
        | some (.arr raws) =>
          (scopesLoop s1 raws.toList).bind fun p =>
            match req.get "arguments" with
            | some args =>
              match args.get "frameId" with
              | some (.int fid) =>
                .ok (clear_awaiting { p.1 with scopes := dictInsert p.1.scopes fid p.2 } res)
              | _ => .error .keyError
            | none => .error .keyError
        | some _ => .error .typeError
        | none => .error .keyError
      | "variables" =>
        match res.body.get "variables" with
        | some (.arr raws) => varsLoop s1 req res raws.toList
        | some _ => .error .typeError
        | none => .error .keyError
      | "disconnect" => .error .systemExit
      | _ => .ok s1

/-- Inbound events with the body fields `handle_event` projects out of
them. -/
inductive PyEvent where
  | evInitialized
  | evStopped (threadId : Int)
  | evOutput (category : String) (output : Json)
  | evThread (threadId : Int) (reason : String)
  | evTerminated
  | evOther (name : String)
deriving Repr, DecidableEq

/-- `Handler.reset_state` (testclient.py:284): clears `stack_frames` and
`scopes` — and nothing else (in particular not `variables` and not
`awaiting_response`). -/
def reset_state (s : HandlerState) : HandlerState :=
  { s with stack_frames := [], scopes := [] }

/-- `Handler.wait_for_connect` (testclient.py:141): creates the `Event`
(initially unset) and blocks on it; blocking is the caller's side and not
part of the state transition. -/
def wait_for_connect (s : HandlerState) : HandlerState :=
  { s with wait_event := some false }

/-- `Handler.handle_event` (testclient.py:253).  The `stopped` arm sets the
wait event *first*, then records the thread, resets per-stop state, and
requests threads.  The `terminated` arm executes `self.disconnect()`, but
`Handler` defines no `disconnect` attribute, so Python raises
`AttributeError` before anything else happens. -/
def handle_event (s : HandlerState) (e : PyEvent) : Except PyErr HandlerState :=
  match e with
  | .evInitialized =>
    .ok (set_function_breakpoints (set_breakpoints { s with hInitialized := true }))
  | .evStopped tid =>
    let s1 := if s.wait_event = some false
              then { s with wait_event := some true, trace := s.trace ++ [.signalCaller] }
              else s
    .ok (send_threads (reset_state { s1 with current_thread := some tid }))
  | .evOutput cat out =>
    if cat = "stdout" then .ok { s with trace := s.trace ++ [.printOut out] }
    else if cat = "stderr" then .ok { s with trace := s.trace ++ [.printErr out] }
    else .ok s
  | .evThread tid reason =>
    if reason = "started" then
      .ok { s with thread_status := dictInsert s.thread_status tid .started }
    else if reason = "exited" then
      .ok { s with thread_status := dictInsert s.thread_status tid .exited }
    else .error .valueError
  | .evTerminated => .error .attributeError
  | .evOther _ => .ok s

/-- The caller-initiated send operations of claim C2, with their
arguments. -/
inductive Op where
  | opInit
  | opAttach
  | opSetBreakpoints
  | opSetFnBreakpoints
  | opConfigDone
  | opThreads
  | opStackTrace (tid : Int)
  | opScopes (fr : StackFrame)
  | opVariables (ref : Int)
  | opContinue
  | opDisconnect
deriving Repr, DecidableEq

/-- Dispatch one send operation. -/
def applyOp (s : HandlerState) : Op → HandlerState
  | .opInit => send_init s
  | .opAttach => send_attach s
  | .opSetBreakpoints => set_breakpoints s
  | .opSetFnBreakpoints => set_function_breakpoints s
  | .opConfigDone => configuration_done s
  | .opThreads => send_threads s
  | .opStackTrace tid => send_stack_trace s tid
  | .opScopes fr => send_scopes s fr
  | .opVariables ref => send_variables s ref
  | .opContinue => send_continue s
  | .opDisconnect => send_disconnect s

/-- Run a sequence of send operations. -/
def runOps (s : HandlerState) : List Op → HandlerState
  | [] => s
  | op :: ops => runOps (applyOp s op) ops

/-- The `"seq"` entry of a transmitted message. -/
def msgSeq (m : Json) : Option Json := m.get "seq"

example : (runOps initHandler [.opInit, .opAttach, .opThreads]).client.sent.map msgSeq
    = [some (.int 1), some (.int 2), some (.int 3)] := by decide
example : ((send_attach initHandler).client.sent.map msgSeq) = [some (.int 1)] := by decide

/-! ### Dictionary lemmas -/

/-- Erasing an absent key leaves the dict unchanged. -/
theorem dictErase_of_lookup_none {α : Type} (k : Int) :
    ∀ (l : List (Int × α)), l.lookup k = none → dictErase l k = l := by
  intro l
  induction l with
  | nil => intro _; rfl
  | cons kv t ih =>
    obtain ⟨k1, v1⟩ := kv
    intro h
    simp only [List.lookup] at h
    by_cases hk : k = k1
    · rw [show (k == k1) = true by simp [hk]] at h; simp at h
    · rw [show (k == k1) = false by simp [hk]] at h
      have := ih h
      simp only [dictErase, List.filter] at this ⊢
      rw [show (!(k1 == k)) = true by simp [Ne.symm hk]]
      simp [this]

/-- After a map-style in-place update, looking up the key finds the new
value. -/
theorem lookup_map_insert {α : Type} (k : Int) (v : α) :
    ∀ (l : List (Int × α)), (l.lookup k).isSome = true →
      (l.map fun kv => if kv.1 = k then (k, v) else kv).lookup k = some v := by
  intro l
  induction l with
  | nil => intro h; simp [List.lookup] at h
  | cons kv t ih =>
    obtain ⟨k1, v1⟩ := kv
    intro h
    by_cases hk : k1 = k
    · subst hk
      have hpr : ((k1, v1) : Int × α).1 = k1 := rfl
      simp only [List.map_cons, if_pos hpr]
      simp [List.lookup]
    · simp only [List.map_cons, if_neg hk]
      simp only [List.lookup] at h ⊢
      rw [show (k == k1) = false by simp [Ne.symm hk]] at h ⊢
      exact ih h

/-- Appending a fresh key at the end makes it visible to lookup. -/
theorem lookup_append_missing {α : Type} (k : Int) (v : α) :
    ∀ (l : List (Int × α)), l.lookup k = none →
      (l ++ [(k, v)]).lookup k = some v := by
  intro l
  induction l with
  | nil => intro _; simp [List.lookup]
  | cons kv t ih =>
    obtain ⟨k1, v1⟩ := kv
    intro h
    simp only [List.lookup, List.cons_append] at h ⊢
    by_cases hk : k = k1
    · rw [show (k == k1) = true by simp [hk]] at h; simp at h
    · rw [show (k == k1) = false by simp [hk]] at h ⊢
      exact ih h

/-- Looking up the inserted key finds the inserted value. -/
theorem dictInsert_lookup_self {α : Type} (l : List (Int × α)) (k : Int) (v : α) :
    (dictInsert l k v).lookup k = some v := by
  unfold dictInsert
  by_cases h : (l.lookup k).isSome
  · simp only [h, if_true]
    exact lookup_map_insert k v l h
  · simp only [h, if_false]
    exact lookup_append_missing k v l (Option.not_isSome_iff_eq_none.mp h)

/-- The full message built by `send_request` for a given outbound `seq`. -/
def fullMsg (msg : JObj) (q : Int) : Json :=
  .obj (msg.merge (jobj [("seq", .int q), ("type", .str "request")]))

/-! ### Claim C9 -/

/-- C9: the claim states that a `terminated` event closes the transport and
signals the caller with an ended sentinel "without raising an unrelated
error".  The code's `terminated` arm executes `self.disconnect()`, but
`Handler` defines no `disconnect` method or attribute (the class has
`send_disconnect`, and the socket-closing method is `Client.disconnect`),
so in every state the event raises `AttributeError` and neither closes the
socket nor signals the caller. -/
theorem c9_terminated_raises_attribute_error (s : HandlerState) :
    handle_event s .evTerminated = .error .attributeError := rfl

/-! ### Claim C10 -/

/-- C10: a response whose `request_seq` matches no pending request is
discarded before its `success` field is inspected: `handle_response`
returns with the state unchanged (for any `success` value, in particular
`false`), touching neither capabilities nor the per-stop collections. -/
theorem c10_unmatched_response_ignored (s : HandlerState) (res : Response)
    (h : s.awaiting_response.lookup res.request_seq = none) :
    handle_response s res = .ok s := by
  simp only [handle_response, h]
  rw [dictErase_of_lookup_none res.request_seq s.awaiting_response h]

/-- Witness for C10 at a concrete input: a failed (`success = false`)
`variables` response with unknown `request_seq` is silently ignored. -/
theorem c10_unmatched_response_ignored_witness :
    handle_response initHandler ⟨1, 99, false, "variables", .null⟩ = .ok initHandler :=
  c10_unmatched_response_ignored initHandler ⟨1, 99, false, "variables", .null⟩ (by decide)

/-! ### Claim C7 -/

/-- A handler state with a stale variables entry and a waiting caller, used
to refute the "clears the variables map" part of C7. -/
def c7_state : HandlerState :=
  { initHandler with varsByRef := [(5, [⟨"x", "1", "int"⟩])], wait_event := some false }

/-- C7 counterexample: on a `stopped` event the stack-frames and scopes
maps are cleared but the variables map is *not* — `reset_state` never
touches `self.variables`, so the claim that all per-stop collections
including the variables map are cleared is false at this input. -/
theorem c7_counterexample :
    (handle_event c7_state (.evStopped 1)).map
      (fun s => (s.varsByRef, s.stack_frames, s.scopes, s.current_thread))
    = .ok ([(5, [⟨"x", "1", "int"⟩])], [], [], some 1) := rfl

/-- C7 amended: on every `stopped` event the handler records the event's
thread id, clears the stack-frames and scopes maps, leaves the variables
map untouched, and only then issues the `threads` request (the only fetch
sent from this arm). -/
theorem c7_amended_stopped_resets (s : HandlerState) (tid : Int) :
    ∃ s2, handle_event s (.evStopped tid) = .ok s2 ∧
      s2.current_thread = some tid ∧
      s2.stack_frames = [] ∧
      s2.scopes = [] ∧
      s2.varsByRef = s.varsByRef ∧
      s2.client.sent = s.client.sent ++ [fullMsg (jobj [("command", .str "threads")]) s.client.seq] := by
  have hseq : (Json.obj ((jobj [("command", Json.str "threads")]).merge
      (jobj [("seq", Json.int s.client.seq), ("type", Json.str "request")]))).get "seq"
      = some (.int s.client.seq) := rfl
  simp only [handle_event]
  by_cases h : s.wait_event = some false
  · refine ⟨_, rfl, ?_⟩
    simp [h, send_threads, hsend, hsendAux, reset_state, ClientState.send_request, fullMsg, hseq]
  · refine ⟨_, rfl, ?_⟩
    simp [h, send_threads, hsend, hsendAux, reset_state, ClientState.send_request, fullMsg, hseq]

/-! ### Claim C5 -/

/-- A handler that has just issued a `variables` request for reference 9
(its `seq` is 1). -/
def c5_state : HandlerState := send_variables initHandler 9

/-- The failed response matched to that pending request. -/
def c5_res : Response := ⟨2, 1, false, "variables", .null⟩

/-- C5 counterexample: the claim says a failed `variables`/`scopes`/
`stackTrace` response is recorded as an empty result and is not fatal; in
the code `handle_response` raises `RuntimeError` for *any* matched response
with `success == false` (testclient.py:168-170), before the per-command
dispatch, so the session does not continue and no empty result is
recorded. -/
theorem c5_counterexample :
    handle_response c5_state c5_res = .error .runtimeError := rfl

/-- C5 amended: every response that matches a (truthy) pending request and
has `success == false` — whatever its command — makes `handle_response`
raise `RuntimeError`; no empty result is recorded and the session loop
dies. -/
theorem c5_amended_failed_response_fatal (s : HandlerState) (res : Response) (req : Json)
    (hm : s.awaiting_response.lookup res.request_seq = some req)
    (ht : req.truthy = true) (hf : res.success = false) :
    handle_response s res = .error .runtimeError := by
  simp [handle_response, hm, ht, hf]

/-- Witness for C5's amended theorem at the concrete input of the
counterexample. -/
theorem c5_amended_failed_response_fatal_witness :
    handle_response c5_state c5_res = .error .runtimeError :=
  c5_amended_failed_response_fatal c5_state c5_res
    (fullMsg (jobj [("command", .str "variables"),
      ("arguments", .obj (jobj [("variablesReference", .int 9)]))]) 1)
    (by decide) (by decide) rfl

/-! ### Claim C1 -/

/-- A handler that sent `initialize` (seq 1) and whose caller is blocked in
`wait_for_connect`. -/
def c1_state : HandlerState := wait_for_connect (send_init initHandler)

/-- C1 counterexample: the claim says the waiting caller is signalled only
after all per-stop fetches have completed and the snapshot is populated.
In the code the `stopped` arm of `handle_event` sets the wait event *first*
(testclient.py:262-263) and only then issues the `threads` request; at the
moment the caller is released no fetch has even been transmitted, and the
stack-frames and scopes maps are empty. -/
theorem c1_counterexample :
    (handle_event c1_state (.evStopped 1)).map
      (fun s => (s.trace.drop 1, s.stack_frames, s.scopes))
    = .ok ([Effect.signalCaller,
            Effect.sendMsg (.obj (jobj [("command", .str "threads"),
              ("seq", .int 2), ("type", .str "request")]))],
           [], []) := rfl

/-- C1 amended: when a caller is waiting (wait event created and unset), a
`stopped` event signals the caller immediately — the signal precedes the
issuing of the stop's only direct fetch (`threads`) in the effect order,
and when the caller wakes the stack-frames and scopes maps are still
empty. -/
theorem c1_amended_signal_before_fetches (s : HandlerState) (tid : Int)
    (h : s.wait_event = some false) :
    ∃ s2, handle_event s (.evStopped tid) = .ok s2 ∧
      s2.trace = s.trace ++
        [Effect.signalCaller,
         Effect.sendMsg (fullMsg (jobj [("command", .str "threads")]) s.client.seq)] ∧
      s2.stack_frames = [] ∧ s2.scopes = [] := by
  have hseq : (Json.obj ((jobj [("command", Json.str "threads")]).merge
      (jobj [("seq", Json.int s.client.seq), ("type", Json.str "request")]))).get "seq"
      = some (.int s.client.seq) := rfl
  simp only [handle_event]
  refine ⟨_, rfl, ?_⟩
  simp [h, send_threads, hsend, hsendAux, reset_state, ClientState.send_request, fullMsg, hseq]

/-- Witness for C1's amended theorem at the concrete input of the
counterexample. -/
theorem c1_amended_signal_before_fetches_witness :
    ∃ s2, handle_event c1_state (.evStopped 1) = .ok s2 ∧
      s2.trace = c1_state.trace ++
        [Effect.signalCaller,
         Effect.sendMsg (fullMsg (jobj [("command", .str "threads")]) c1_state.client.seq)] ∧
      s2.stack_frames = [] ∧ s2.scopes = [] :=
  c1_amended_signal_before_fetches c1_state 1 rfl

/-! ### Claim C8 -/

/-- A raw variable object that the `variables` arm records: its
`variablesReference` is a non-positive integer and its `name`/`value`/
`type` fields spell out the recorded `Variable`. -/
def IsPlain (raw : Json) (v : Variable) : Prop :=
  (∃ ref : Int, raw.get "variablesReference" = some (.int ref) ∧ ref ≤ 0) ∧
  raw.get "name" = some (.str v.name) ∧
  raw.get "value" = some (.str v.value) ∧
  raw.get "type" = some (.str v.typ)

/-- The `variablesReference` argument carried by a pending request. -/
def reqVarRef (req : Json) : Option Int :=
  match req.get "arguments" with
  | some args =>
    match args.get "variablesReference" with
    | some (.int v) => some v
    | _ => none
  | none => none

/-- A handler that has just issued a `variables` request for reference 9. -/
def c8_state : HandlerState := send_variables initHandler 9

/-- A `variables` body whose first entry is structured
(`variablesReference = 5 > 0`) and whose second entry is a plain variable. -/
def c8_body : Json :=
  .obj (jobj [("variables", .arr (jarr [
    .obj (jobj [("name", .str "x"), ("value", .str "1"), ("type", .str "int"),
      ("variablesReference", .int 5)]),
    .obj (jobj [("name", .str "y"), ("value", .str "2"), ("type", .str "str"),
      ("variablesReference", .int 0)])]))])

/-- C8 counterexample: the claim says all non-structured variables in the
body are recorded regardless of their position relative to structured
variables.  Here the plain variable `y` follows a structured variable, the
loop's `return` (testclient.py:226) exits `handle_response` at the
structured entry, and nothing at all is recorded under reference 9. -/
theorem c8_counterexample :
    (handle_response c8_state ⟨2, 1, true, "variables", c8_body⟩).map
      (fun s => s.varsByRef)
    = .ok [] := rfl

/-- The per-stop effect of recording a run of plain variables under one
reference. -/
def recordRun (m : List (Int × List Variable)) (vref : Int) (ps : List Variable) :
    List (Int × List Variable) :=
  ps.foldl (fun acc v => ddAppend acc vref v) m

/-- The `variables` loop records the leading plain variables and stops at
the first structured one, skipping the rest of the body. -/
theorem varsLoop_stops_at_structured (req : Json) (res : Response) (vref : Int)
    (hreq : reqVarRef req = some vref) (sv : Json) (r : Int)
    (hsv : sv.get "variablesReference" = some (.int r)) (hr : 0 < r) (post : List Json) :
    ∀ (pre : List Json) (ps : List Variable) (s : HandlerState),
      List.Forall₂ IsPlain pre ps →
      ∃ s2, varsLoop s req res (pre ++ sv :: post) = .ok s2 ∧
        s2.varsByRef = recordRun s.varsByRef vref ps := by
  intro pre
  induction pre with
  | nil =>
    intro ps s h
    cases h
    refine ⟨s, ?_, rfl⟩
    simp only [List.nil_append, varsLoop, hsv]
    rw [if_pos (by omega)]
  | cons raw pre ih =>
    intro ps s h
    rcases h with _ | ⟨hp, htl⟩
    obtain ⟨⟨ref, href, hle⟩, hnm, hvl, hty⟩ := hp
    rename_i v ps'
    obtain ⟨aobj, ha1, ha2⟩ : ∃ aobj, req.get "arguments" = some aobj ∧
        aobj.get "variablesReference" = some (.int vref) := by
      unfold reqVarRef at hreq
      split at hreq
      · rename_i args hargs
        split at hreq
        · rename_i v2 hv2
          cases hreq
          exact ⟨args, hargs, hv2⟩
        · exact absurd hreq (by simp)
      · exact absurd hreq (by simp)
    simp only [List.cons_append, varsLoop, href, hnm, hvl, hty, ha1, ha2]
    rw [if_neg (by omega)]
    obtain ⟨s2, hs2, hv2⟩ := ih ps' (clear_awaiting
      { s with varsByRef := ddAppend s.varsByRef vref v } res) htl
    refine ⟨s2, hs2, ?_⟩
    rw [hv2]
    simp [clear_awaiting, recordRun]

/-- C8 amended: on a successful `variables` response matched to its
originating request, the handler records — under the request's
`variablesReference` — exactly the plain variables that *precede* the
first structured variable in the body's list; at the structured variable
the loop returns and every remaining entry (structured or plain) is
skipped. -/
theorem c8_amended_records_only_leading_plain (s : HandlerState) (res : Response) (req : Json)
    (pre post : List Json) (sv : Json) (ps : List Variable) (vref r : Int)
    (hm : s.awaiting_response.lookup res.request_seq = some req)
    (ht : req.truthy = true) (hs : res.success = true) (hc : res.command = "variables")
    (hb : res.body.get "variables" = some (.arr (jarr (pre ++ sv :: post))))
    (hpre : List.Forall₂ IsPlain pre ps)
    (hreq : reqVarRef req = some vref)
    (hsv : sv.get "variablesReference" = some (.int r)) (hr : 0 < r) :
    ∃ s2, handle_response s res = .ok s2 ∧
      s2.varsByRef = recordRun s.varsByRef vref ps := by
  have harr : (jarr (pre ++ sv :: post)).toList = pre ++ sv :: post := by
    clear hb
    induction (pre ++ sv :: post) with
    | nil => rfl
    | cons x xs ih => simp [jarr, JArr.toList, ih]
  simp only [handle_response, hm]
  rw [if_neg (by simp [ht]), if_neg (by simp [hs]), hc]
  simp only [hb, harr]
  exact varsLoop_stops_at_structured req res vref hreq sv r hsv hr post pre ps _ hpre

/-- The leading plain variable of the witness body. -/
def c8w_pre : Json :=
  .obj (jobj [("name", .str "a"), ("value", .str "1"), ("type", .str "int"),
    ("variablesReference", .int 0)])

/-- The structured variable of the witness body. -/
def c8w_sv : Json := .obj (jobj [("variablesReference", .int 5)])

/-- The witness response: one plain variable, then one structured one. -/
def c8w_res : Response :=
  ⟨2, 1, true, "variables", .obj (jobj [("variables", .arr (jarr [c8w_pre, c8w_sv]))])⟩

/-- Witness for C8's amended theorem at a concrete input. -/
theorem c8_amended_records_only_leading_plain_witness :
    ∃ s2, handle_response c8_state c8w_res = .ok s2 ∧
      s2.varsByRef = recordRun c8_state.varsByRef 9 [⟨"a", "1", "int"⟩] :=
  c8_amended_records_only_leading_plain c8_state c8w_res
    (fullMsg (jobj [("command", .str "variables"),
      ("arguments", .obj (jobj [("variablesReference", .int 9)]))]) 1)
    [c8w_pre] [] c8w_sv [⟨"a", "1", "int"⟩] 9 5
    (by decide) (by decide) rfl rfl rfl
    (List.Forall₂.cons ⟨⟨0, rfl, by decide⟩, rfl, rfl, rfl⟩ List.Forall₂.nil)
    rfl rfl (by decide)

/-! ### Claim C6 -/

/-- `jarr` and `JArr.toList` are mutually inverse on Lean lists. -/
theorem jarr_toList : ∀ (l : List Json), (jarr l).toList = l := by
  intro l
  induction l with
  | nil => rfl
  | cons x xs ih => simp [jarr, JArr.toList, ih]

/-- A raw stack-frame object and the `StackFrame` that
`StackFrame.from_raw` reconstructs from it. -/
def IsRawFrame (raw : Json) (fr : StackFrame) : Prop :=
  (∃ src, raw.get "source" = some src ∧ src.get "path" = some (.str fr.source.path)) ∧
  raw.get "id" = some (.int fr.id) ∧
  raw.get "name" = some (.str fr.name) ∧
  raw.get "line" = some (.int fr.line) ∧
  raw.get "column" = some (.int fr.column)

/-- The `threadId` argument carried by a pending request. -/
def reqThreadId (req : Json) : Option Int :=
  match req.get "arguments" with
  | some args =>
    match args.get "threadId" with
    | some (.int v) => some v
    | _ => none
  | none => none

/-- Sending a request touches only the client, the trace and the pending
table. -/
theorem hsendAux_keeps (s : HandlerState) (pr : ClientState × Json) :
    (hsendAux s pr).stack_frames = s.stack_frames ∧
    (hsendAux s pr).scopes = s.scopes ∧
    (hsendAux s pr).varsByRef = s.varsByRef ∧
    (hsendAux s pr).current_thread = s.current_thread ∧
    (hsendAux s pr).wait_event = s.wait_event ∧
    (hsendAux s pr).capabilities = s.capabilities := by
  unfold hsendAux
  split <;> exact ⟨rfl, rfl, rfl, rfl, rfl, rfl⟩

/-- Sending a request installs the updated client returned by
`send_request`. -/
theorem hsendAux_client (s : HandlerState) (pr : ClientState × Json) :
    (hsendAux s pr).client = pr.1 := by
  unfold hsendAux
  split <;> rfl

/-- `from_raw` succeeds on a well-formed raw frame. -/
theorem from_raw_ok (raw : Json) (fr : StackFrame) (h : IsRawFrame raw fr) :
    StackFrame.from_raw raw = .ok fr := by
  obtain ⟨⟨src, hsrc, hpath⟩, hid, hnm, hln, hcol⟩ := h
  obtain ⟨i, n, l, c, ⟨p⟩⟩ := fr
  simp only [StackFrame.from_raw, hsrc, hpath, hid, hnm, hln, hcol]

/-- The `stackTrace` loop sends a `scopes` request per frame, touching
neither `stack_frames` nor any other per-stop collection, and returns the
reconstructed frames in order. -/
theorem framesLoop_ok (frames : List StackFrame) :
    ∀ (raws : List Json) (s : HandlerState), List.Forall₂ IsRawFrame raws frames →
      ∃ s2, framesLoop s raws = .ok (s2, frames) ∧ s2.stack_frames = s.stack_frames := by
  intro raws s h
  induction h generalizing s with
  | nil => exact ⟨s, rfl, rfl⟩
  | cons hp htl ih =>
    rename_i raw fr raws2 frames2
    have hfr := from_raw_ok raw fr hp
    obtain ⟨s2, h1, h2⟩ := ih (send_scopes s fr)
    refine ⟨s2, ?_, ?_⟩
    · simp only [framesLoop, hfr, h1, Except.map]
    · rw [h2]
      exact (hsendAux_keeps s (s.client.send_request _)).1

/-- A handler holding a pending `stackTrace` request (seq 1, thread 1),
as issued while handling an earlier stop. -/
def c6_state : HandlerState := send_stack_trace initHandler 1

/-- A raw frame delivered by the (stale) `stackTrace` response. -/
def c6_frame_raw : Json :=
  .obj (jobj [("id", .int 7), ("name", .str "f"), ("line", .int 3), ("column", .int 1),
    ("source", .obj (jobj [("path", .str "a.py")]))])

/-- The stale `stackTrace` response matching the pending request of the
earlier stop. -/
def c6_res : Response :=
  ⟨0, 1, true, "stackTrace", .obj (jobj [("stackFrames", .arr (jarr [c6_frame_raw]))])⟩

/-- C6 counterexample: the claim says per-stop fetches carry a stop epoch
and stale responses are dropped.  There is no epoch anywhere in the code:
after a *later* stop (`stopped` for thread 2, which clears the per-stop
maps but leaves `awaiting_response` untouched), the stale `stackTrace`
response issued for the earlier stop still matches its pending request and
its frames are applied to the current `stack_frames` map. -/
theorem c6_counterexample :
    ((handle_event c6_state (.evStopped 2)).bind
        (fun s1 => handle_response s1 c6_res)).map
      (fun s2 => s2.stack_frames.lookup 1)
    = .ok (some (some [⟨7, "f", 3, 1, ⟨"a.py"⟩⟩])) := rfl

/-- C6 amended: fetches carry no stop epoch.  `reset_state` (run on every
new stop) leaves the pending-request table untouched, and any `stackTrace`
response that still matches a pending request is applied to the current
`stack_frames` map — regardless of intervening stops or resumes.  Only a
response matching no pending request is dropped. -/
theorem c6_amended_no_epoch_stale_applied (s : HandlerState) (res : Response) (req : Json)
    (tid : Int) (raws : List Json) (frames : List StackFrame)
    (hm : s.awaiting_response.lookup res.request_seq = some req)
    (ht : req.truthy = true) (hs : res.success = true) (hc : res.command = "stackTrace")
    (hb : res.body.get "stackFrames" = some (.arr (jarr raws)))
    (hfr : List.Forall₂ IsRawFrame raws frames)
    (hreq : reqThreadId req = some tid) :
    (reset_state s).awaiting_response = s.awaiting_response ∧
    ∃ s2, handle_response s res = .ok s2 ∧
      s2.stack_frames.lookup tid = some (some frames) := by
  refine ⟨rfl, ?_⟩
  obtain ⟨aobj, ha1, ha2⟩ : ∃ aobj, req.get "arguments" = some aobj ∧
      aobj.get "threadId" = some (.int tid) := by
    unfold reqThreadId at hreq
    split at hreq
    · rename_i args hargs
      split at hreq
      · rename_i v2 hv2
        cases hreq
        exact ⟨args, hargs, hv2⟩
      · exact absurd hreq (by simp)
    · exact absurd hreq (by simp)
  obtain ⟨s2, h1, h2⟩ := framesLoop_ok frames raws
    { s with awaiting_response := dictErase s.awaiting_response res.request_seq } hfr
  simp only [handle_response, hm]
  rw [if_neg (by simp [ht]), if_neg (by simp [hs]), hc]
  simp only [hb, jarr_toList, h1, Except.bind, ha1, ha2]
  exact ⟨_, rfl, dictInsert_lookup_self _ tid (some frames)⟩

/-- Witness for C6's amended theorem, at the concrete stale input of the
counterexample (applied directly to the pending state, which is exactly
the situation after the later stop since `reset_state` keeps the table). -/
theorem c6_amended_no_epoch_stale_applied_witness :
    (reset_state c6_state).awaiting_response = c6_state.awaiting_response ∧
    ∃ s2, handle_response c6_state c6_res = .ok s2 ∧
      s2.stack_frames.lookup 1 = some (some [⟨7, "f", 3, 1, ⟨"a.py"⟩⟩]) :=
  c6_amended_no_epoch_stale_applied c6_state c6_res
    (fullMsg (jobj [("command", .str "stackTrace"),
      ("arguments", .obj (jobj [("threadId", .int 1)]))]) 1)
    1 [c6_frame_raw] [⟨7, "f", 3, 1, ⟨"a.py"⟩⟩]
    (by decide) (by decide) rfl rfl rfl
    (List.Forall₂.cons ⟨⟨.obj (jobj [("path", .str "a.py")]), rfl, rfl⟩, rfl, rfl, rfl, rfl⟩
      List.Forall₂.nil)
    rfl

/-! ### Claim C2 -/

/-- `hsend` bumps the `seq` counter by one and transmits exactly the
merged full message. -/
theorem hsend_client (s : HandlerState) (msg : JObj) :
    (hsend s msg).client.seq = s.client.seq + 1 ∧
    (hsend s msg).client.sent = s.client.sent ++ [fullMsg msg s.client.seq] := by
  have h := hsendAux_client s (s.client.send_request msg)
  unfold hsend
  rw [h]
  exact ⟨rfl, rfl⟩

/-- Every send operation transmits exactly one message, whose `"seq"`
entry is the current counter value — even `send_attach`, whose template
carries a literal `"seq": 2` that the dict merge overrides — and bumps the
counter by one. -/
theorem applyOp_spec (op : Op) (s : HandlerState) :
    (applyOp s op).client.seq = s.client.seq + 1 ∧
    ∃ m, (applyOp s op).client.sent = s.client.sent ++ [m] ∧
      msgSeq m = some (.int s.client.seq) := by
  cases op <;>
    exact ⟨(hsend_client _ _).1, _, (hsend_client _ _).2, rfl⟩

/-- The `seq` entries of `n` consecutive requests starting at counter
value `q`. -/
def seqList (q : Int) : Nat → List (Option Json)
  | 0 => []
  | n+1 => some (.int q) :: seqList (q+1) n

/-- The transmitted `seq` values appended by a run of operations, starting
from an arbitrary state. -/
theorem runOps_sent (ops : List Op) : ∀ (s : HandlerState),
    (runOps s ops).client.sent.map msgSeq
      = s.client.sent.map msgSeq ++ seqList s.client.seq ops.length := by
  induction ops with
  | nil => intro s; simp [runOps, seqList]
  | cons op ops ih =>
    intro s
    obtain ⟨h1, m, h2, h3⟩ := applyOp_spec op s
    simp only [runOps]
    rw [ih (applyOp s op), h2, h1]
    simp [List.map_append, h3, seqList]

/-- `seqList` spells out to the arithmetic progression `q, q+1, ...`. -/
theorem seqList_eq_range : ∀ (n : Nat) (q : Int),
    seqList q n = (List.range n).map (fun i => some (.int (q + i))) := by
  intro n
  induction n with
  | zero => intro q; simp [seqList]
  | succ n ih =>
    intro q
    simp only [seqList, List.range_succ_eq_map, List.map_cons, List.map_map]
    congr 1
    · norm_num
    · rw [ih (q+1)]
      apply List.map_congr_left
      intro i hi
      simp only [Function.comp_apply]
      congr 2
      push_cast
      ring

/-- C2: for every sequence of caller-initiated requests — in any order of
the send operations, including `send_attach` whose template carries a
literal `"seq": 2` — the transmitted messages carry exactly the `seq`
values `1, 2, 3, ...` in order: strictly increasing and starting at 1.
The dict merge in `send_request` overrides any `"seq"` entry of the
template. -/
theorem c2_seq_strictly_increasing_from_one (ops : List Op) :
    (runOps initHandler ops).client.sent.map msgSeq
      = (List.range ops.length).map (fun i => some (.int (1 + i))) := by
  have h := runOps_sent ops initHandler
  rw [seqList_eq_range] at h
  simpa [initHandler, initClient] using h

/-! ### Decimal round trip -/

/-- Fuel does not matter once it exceeds the argument. -/
theorem natDigitsF_congr : ∀ (n f g : Nat), n < f → n < g →
    natDigitsF f n = natDigitsF g n := by
  intro n
  induction n using Nat.strong_induction_on with
  | _ n ih =>
    intro f g hf hg
    obtain ⟨f2, rfl⟩ : ∃ f2, f = f2 + 1 := ⟨f - 1, by omega⟩
    obtain ⟨g2, rfl⟩ : ∃ g2, g = g2 + 1 := ⟨g - 1, by omega⟩
    simp only [natDigitsF]
    by_cases h : n < 10
    · simp [h]
    · simp only [if_neg h]
      congr 1
      have h1 : n / 10 < n := Nat.div_lt_self (by omega) (by omega)
      exact ih (n / 10) h1 f2 g2 (by omega) (by omega)

/-- The code point of a digit character. -/
theorem digitChar_toNat (n : Nat) (h : n < 10) : (digitChar n).toNat = 48 + n := by
  interval_cases n <;> decide

/-- Digit characters satisfy the digit predicate. -/
theorem digitChar_isDigit (n : Nat) (h : n < 10) : isDigitCh (digitChar n) = true := by
  interval_cases n <;> decide

/-- Recover the digit from its character. -/
theorem digitChar_sub (n : Nat) (h : n < 10) : (digitChar n).toNat - 48 = n := by
  interval_cases n <;> decide

/-- Every character of a rendered natural number is a digit. -/
theorem natDigitsF_digits : ∀ (f n : Nat), ∀ c ∈ natDigitsF f n, isDigitCh c = true := by
  intro f
  induction f with
  | zero => intro n c hc; simp [natDigitsF] at hc
  | succ f ih =>
    intro n c hc
    simp only [natDigitsF] at hc
    by_cases h : n < 10
    · simp [h] at hc
      subst hc
      exact digitChar_isDigit n h
    · simp [h] at hc
      rcases hc with h1 | h1
      · exact ih _ c h1
      · subst h1
        exact digitChar_isDigit _ (Nat.mod_lt _ (by omega))

/-- Every character of `natToStr n` is a digit. -/
theorem natToStr_digits (n : Nat) : ∀ c ∈ natToStr n, isDigitCh c = true :=
  natDigitsF_digits _ _

/-- `natToStr` never renders the empty string. -/
theorem natToStr_ne_nil (n : Nat) : natToStr n ≠ [] := by
  unfold natToStr natDigitsF
  by_cases h : n < 10 <;> simp [h]

/-- Digit bounds from the predicate. -/
theorem isDigitCh_val (c : Char) (h : isDigitCh c = true) :
    48 ≤ c.toNat ∧ c.toNat ≤ 57 := by
  simp [isDigitCh] at h
  exact h

/-- Appending a final digit multiplies by ten and adds it. -/
theorem digitsVal_append (a : List Char) (c : Char) :
    digitsVal (a ++ [c]) = digitsVal a * 10 + (c.toNat - 48) := by
  simp [digitsVal, List.foldl_append]

/-- The rendered digits of `n` denote `n`. -/
theorem digitsVal_natToStr : ∀ (n : Nat), digitsVal (natToStr n) = n := by
  intro n
  induction n using Nat.strong_induction_on with
  | _ n ih =>
    unfold natToStr
    simp only [natDigitsF]
    by_cases h : n < 10
    · simp only [if_pos h]
      simp [digitsVal]
      have := digitChar_sub n h
      omega
    · simp only [if_neg h]
      have h1 : n / 10 < n := Nat.div_lt_self (by omega) (by omega)
      rw [natDigitsF_congr (n / 10) n (n / 10 + 1) h1 (by omega)]
      rw [digitsVal_append]
      rw [show natDigitsF (n / 10 + 1) (n / 10) = natToStr (n / 10) from rfl]
      rw [ih (n / 10) h1]
      rw [digitChar_sub _ (Nat.mod_lt _ (by omega))]
      omega

/-- A list not starting with a `p`-character (or empty). -/
def headNot (p : Char → Bool) (l : List Char) : Prop :=
  l = [] ∨ ∃ c r, l = c :: r ∧ p c = false

/-- `takeWhile`/`dropWhile` split an all-`p` run followed by a non-`p`
head. -/
theorem span_append_not (p : Char → Bool) : ∀ (a b : List Char),
    (∀ c ∈ a, p c = true) → headNot p b →
    (a ++ b).takeWhile p = a ∧ (a ++ b).dropWhile p = b := by
  intro a
  induction a with
  | nil =>
    intro b _ hb
    rcases hb with rfl | ⟨c, r, rfl, hc⟩
    · simp
    · simp [List.takeWhile_cons, List.dropWhile_cons, hc]
  | cons x a ih =>
    intro b ha hb
    have hx : p x = true := ha x (by simp)
    obtain ⟨h1, h2⟩ := ih b (fun c hc => ha c (by simp [hc])) hb
    simp [List.takeWhile_cons, List.dropWhile_cons, hx, h1, h2]

/-- `parseNat` inverts `natToStr` when the remainder does not start with a
digit. -/
theorem parseNat_natToStr (n : Nat) (rest : List Char) (h : headNot isDigitCh rest) :
    parseNat (natToStr n ++ rest) = some (n, rest) := by
  obtain ⟨htake, hdrop⟩ := span_append_not isDigitCh (natToStr n) rest (natToStr_digits n) h
  simp only [parseNat, htake, hdrop]
  rw [if_neg (by simpa [List.isEmpty_iff] using natToStr_ne_nil n)]
  rw [digitsVal_natToStr]

/-- Digits are not the minus sign. -/
theorem isDigitCh_ne_minus (c : Char) (h : isDigitCh c = true) : ¬ c = '-' := by
  intro hc
  subst hc
  simp [isDigitCh] at h

/-- `parseIntLit` inverts `intToStr` when the remainder does not start
with a digit. -/
theorem parseIntLit_intToStr (n : Int) (rest : List Char) (h : headNot isDigitCh rest) :
    parseIntLit (intToStr n ++ rest) = some (n, rest) := by
  unfold intToStr
  by_cases hn : n < 0
  · simp only [if_pos hn, List.cons_append, parseIntLit, if_pos rfl]
    rw [parseNat_natToStr _ _ h]
    simp only [Option.map_some']
    have hna : -((n.natAbs : Int)) = n := by omega
    rw [hna]
    simp
  · simp only [if_neg hn]
    obtain ⟨c, r, hcr, hdig⟩ : ∃ c r, natToStr n.toNat = c :: r ∧ isDigitCh c = true := by
      cases hh : natToStr n.toNat with
      | nil => exact absurd hh (natToStr_ne_nil _)
      | cons c r => exact ⟨c, r, rfl, natToStr_digits _ c (by rw [hh]; exact List.mem_cons_self c r)⟩
    have hpn := parseNat_natToStr n.toNat rest h
    rw [hcr] at hpn ⊢
    simp only [List.cons_append] at hpn ⊢
    simp only [parseIntLit, if_neg (isDigitCh_ne_minus c hdig), hpn]
    simp only [Option.map_some']
    have hna : ((n.toNat : Int)) = n := by omega
    rw [hna]

/-! ### String escaping round trip -/

/-- Every `Char` is either below the surrogate range or above it. -/
theorem char_range (c : Char) :
    c.toNat < 55296 ∨ (57344 ≤ c.toNat ∧ c.toNat < 1114112) := by
  have h := c.valid
  simp only [UInt32.isValidChar, Nat.isValidChar] at h
  rcases h with h | h
  · left; exact h
  · right; exact h

/-- Hex digits round-trip through their character. -/
theorem hexVal_hexDigitChar (d : Nat) (h : d < 16) :
    hexVal (hexDigitChar d) = some d := by
  interval_cases d <;> decide

/-- `parseHex4` inverts `hex4` (for values below `0x10000`). -/
theorem parseHex4_hex4 (t : Nat) (h : t < 65536) (r : List Char) :
    parseHex4 (hex4 t ++ r) = some (t, r) := by
  simp only [hex4, List.cons_append, List.nil_append, parseHex4]
  rw [hexVal_hexDigitChar _ (Nat.mod_lt _ (by omega)),
      hexVal_hexDigitChar _ (Nat.mod_lt _ (by omega)),
      hexVal_hexDigitChar _ (Nat.mod_lt _ (by omega)),
      hexVal_hexDigitChar _ (Nat.mod_lt _ (by omega))]
  have harith : ((t / 4096 % 16 * 16 + t / 256 % 16) * 16 + t / 16 % 16) * 16 + t % 16 = t := by
    omega
  simp [harith]

/-- `parseUEsc` on a non-surrogate four-digit escape. -/
theorem parseUEsc_single (t : Nat) (h : t < 65536)
    (hval : ¬ (55296 ≤ t ∧ t ≤ 56319)) (hval2 : ¬ (56320 ≤ t ∧ t ≤ 57343))
    (l : List Char) : parseUEsc (hex4 t ++ l) = some (Char.ofNat t, l) := by
  unfold parseUEsc
  rw [parseHex4_hex4 _ h l]
  simp only [if_neg hval, if_neg hval2]

/-- `parseUEsc` on a surrogate pair. -/
theorem parseUEsc_pair (n m : Nat)
    (hn : 55296 ≤ n ∧ n ≤ 56319) (hm : 56320 ≤ m ∧ m ≤ 57343) (l : List Char) :
    parseUEsc (hex4 n ++ ('\\' :: 'u' :: (hex4 m ++ l)))
    = some (Char.ofNat (65536 + (n - 55296) * 1024 + (m - 56320)), l) := by
  unfold parseUEsc
  rw [parseHex4_hex4 _ (by omega) _]
  simp only [if_pos hn]
  simp only [and_self, if_true]
  rw [parseHex4_hex4 _ (by omega) _]
  simp only [if_pos hm]

/-- One escaped character parses back to itself, continuing with the rest
of the body. -/
theorem parseStrBodyF_escapeChar (c : Char) (f : Nat) (l : List Char) :
    parseStrBodyF (f+1) (escapeChar c ++ l) = pushChar c (parseStrBodyF f l) := by
  unfold escapeChar
  by_cases h1 : c = '\"'
  · subst h1; rfl
  rw [if_neg h1]
  by_cases h2 : c = '\\'
  · subst h2; rfl
  rw [if_neg h2]
  by_cases h3 : c = '\n'
  · subst h3; rfl
  rw [if_neg h3]
  by_cases h4 : c = '\r'
  · subst h4; rfl
  rw [if_neg h4]
  by_cases h5 : c = '\t'
  · subst h5; rfl
  rw [if_neg h5]
  by_cases h6 : c.toNat = 8
  · rw [if_pos h6]
    have hred : parseStrBodyF (f+1) ('\\' :: 'b' :: l) = pushChar (Char.ofNat 8) (parseStrBodyF f l) := rfl
    rw [show (['\\', 'b'] : List Char) ++ l = '\\' :: 'b' :: l from rfl, hred, ← h6, Char.ofNat_toNat]
  rw [if_neg h6]
  by_cases h7 : c.toNat = 12
  · rw [if_pos h7]
    have hred : parseStrBodyF (f+1) ('\\' :: 'f' :: l) = pushChar (Char.ofNat 12) (parseStrBodyF f l) := rfl
    rw [show (['\\', 'f'] : List Char) ++ l = '\\' :: 'f' :: l from rfl, hred, ← h7, Char.ofNat_toNat]
  rw [if_neg h7]
  by_cases h8 : 32 ≤ c.toNat ∧ c.toNat ≤ 126
  · rw [if_pos h8]
    rw [show ([c] : List Char) ++ l = c :: l from rfl]
    show (if c = '\"' then some ([], l)
          else if c = '\\' then _
          else if c.toNat < 32 then none
          else pushChar c (parseStrBodyF f l)) = pushChar c (parseStrBodyF f l)
    rw [if_neg h1, if_neg h2, if_neg (show ¬ c.toNat < 32 by omega)]
  rw [if_neg h8]
  have hred : ∀ (r : List Char), parseStrBodyF (f+1) ('\\' :: 'u' :: r)
      = (match parseUEsc r with
         | none => none
         | some (ch, r2) => pushChar ch (parseStrBodyF f r2)) := fun r => rfl
  by_cases h9 : c.toNat < 65536
  · rw [if_pos h9]
    have hval : ¬ (55296 ≤ c.toNat ∧ c.toNat ≤ 56319) ∧ ¬ (56320 ≤ c.toNat ∧ c.toNat ≤ 57343) := by
      rcases char_range c with h | h
      · exact ⟨by omega, by omega⟩
      · exact ⟨by omega, by omega⟩
    have hu := parseUEsc_single c.toNat h9 hval.1 hval.2 l
    rw [Char.ofNat_toNat] at hu
    show parseStrBodyF (f+1) ('\\' :: 'u' :: (hex4 c.toNat ++ l)) = pushChar c (parseStrBodyF f l)
    rw [hred, hu]
  rw [if_neg h9]
  have hc := char_range c
  have hhi : 55296 ≤ 55296 + (c.toNat - 65536) / 1024 ∧ 55296 + (c.toNat - 65536) / 1024 ≤ 56319 := by
    constructor
    · omega
    · have : (c.toNat - 65536) / 1024 ≤ 1023 := by omega
      omega
  have hlo : 56320 ≤ 56320 + (c.toNat - 65536) % 1024 ∧ 56320 + (c.toNat - 65536) % 1024 ≤ 57343 := by
    have : (c.toNat - 65536) % 1024 < 1024 := Nat.mod_lt _ (by omega)
    omega
  have hu := parseUEsc_pair (55296 + (c.toNat - 65536) / 1024)
    (56320 + (c.toNat - 65536) % 1024) hhi hlo l
  have harith : 65536 + (55296 + (c.toNat - 65536) / 1024 - 55296) * 1024 +
      (56320 + (c.toNat - 65536) % 1024 - 56320) = c.toNat := by
    omega
  rw [harith, Char.ofNat_toNat] at hu
  show parseStrBodyF (f+1)
        ('\\' :: 'u' :: (hex4 (55296 + (c.toNat - 65536) / 1024) ++
          ('\\' :: 'u' :: (hex4 (56320 + (c.toNat - 65536) % 1024) ++ l))))
      = pushChar c (parseStrBodyF f l)
  rw [hred, hu]

/-- Escaping produces at least one character per input character. -/
theorem escapeChar_length (c : Char) : 1 ≤ (escapeChar c).length := by
  unfold escapeChar
  split_ifs <;> simp [hex4]

/-- Escaping never shrinks a string. -/
theorem escapeStr_length : ∀ (cs : List Char), cs.length ≤ (escapeStr cs).length := by
  intro cs
  induction cs with
  | nil => simp [escapeStr]
  | cons c cs ih =>
    have := escapeChar_length c
    simp only [escapeStr, List.length_append, List.length_cons]
    omega

/-- A whole escaped body parses back, stopping at the closing quote. -/
theorem parseStrBodyF_escapeStr : ∀ (cs : List Char) (f : Nat) (rest : List Char),
    cs.length < f →
    parseStrBodyF f (escapeStr cs ++ '\"' :: rest) = some (cs, rest) := by
  intro cs
  induction cs with
  | nil =>
    intro f rest hf
    obtain ⟨f2, rfl⟩ : ∃ f2, f = f2 + 1 := ⟨f - 1, by omega⟩
    rfl
  | cons c cs ih =>
    intro f rest hf
    obtain ⟨f2, rfl⟩ : ∃ f2, f = f2 + 1 := ⟨f - 1, by omega⟩
    have : escapeStr (c :: cs) ++ '\"' :: rest = escapeChar c ++ (escapeStr cs ++ '\"' :: rest) := by
      simp [escapeStr, List.append_assoc]
    rw [this, parseStrBodyF_escapeChar, ih f2 rest (by simp at hf; omega)]
    rfl

/-- `parseStrBody` inverts string escaping. -/
theorem parseStrBody_escapeStr (cs : List Char) (rest : List Char) :
    parseStrBody (escapeStr cs ++ '\"' :: rest) = some (cs, rest) := by
  unfold parseStrBody
  apply parseStrBodyF_escapeStr
  have := escapeStr_length cs
  simp only [List.length_append, List.length_cons]
  omega

/-- Rebuilding a string from its characters is the identity. -/
theorem smk_toList (s : String) : String.mk s.toList = s := rfl

/-! ### Value round trip -/

/-- Characters unequal when their code points are. -/
theorem charNe (c d : Char) (h : c.toNat ≠ d.toNat) : c ≠ d := by
  intro hc
  subst hc
  exact h rfl

/-- A digit character is none of the JSON structural characters. -/
theorem isDigitCh_facts (c : Char) (h : isDigitCh c = true) :
    c ≠ '\"' ∧ c ≠ lcurly ∧ c ≠ '[' ∧ c ≠ 'n' ∧ c ≠ 't' ∧ c ≠ 'f' ∧
    jsonWs c = false ∧ c ≠ ']' ∧ c ≠ ',' ∧ c ≠ ':' ∧ c ≠ rcurly := by
  obtain ⟨hl, hr⟩ := isDigitCh_val c h
  have hws : jsonWs c = false := by
    have h1 : c ≠ ' ' := charNe c ' ' (by rw [show (' ').toNat = 32 from rfl]; omega)
    have h2 : c ≠ '\t' := charNe c '\t' (by rw [show ('\t').toNat = 9 from rfl]; omega)
    have h3 : c ≠ '\n' := charNe c '\n' (by rw [show ('\n').toNat = 10 from rfl]; omega)
    have h4 : c ≠ '\r' := charNe c '\r' (by rw [show ('\r').toNat = 13 from rfl]; omega)
    simp [jsonWs, h1, h2, h3, h4]
  exact ⟨charNe c '\"' (by rw [show ('\"').toNat = 34 from rfl]; omega),
    charNe c lcurly (by rw [show lcurly.toNat = 123 from rfl]; omega),
    charNe c '[' (by rw [show ('[').toNat = 91 from rfl]; omega),
    charNe c 'n' (by rw [show ('n').toNat = 110 from rfl]; omega),
    charNe c 't' (by rw [show ('t').toNat = 116 from rfl]; omega),
    charNe c 'f' (by rw [show ('f').toNat = 102 from rfl]; omega),
    hws,
    charNe c ']' (by rw [show (']').toNat = 93 from rfl]; omega),
    charNe c ',' (by rw [show (',').toNat = 44 from rfl]; omega),
    charNe c ':' (by rw [show (':').toNat = 58 from rfl]; omega),
    charNe c rcurly (by rw [show rcurly.toNat = 125 from rfl]; omega)⟩


/-- A take of a cons cannot equal a literal list with a different head. -/
theorem take_ne_of_head_ne (a b : Char) (l rest : List Char) (n : Nat) (h : a ≠ b) :
    (a :: l).take (n+1) ≠ b :: rest := by
  intro hc
  simp only [List.take_succ_cons, List.cons.injEq] at hc
  exact h hc.1

/-- `natToStr` starts with a digit. -/
theorem natToStr_head (k : Nat) : ∃ c r, natToStr k = c :: r ∧ isDigitCh c = true := by
  cases hh : natToStr k with
  | nil => exact absurd hh (natToStr_ne_nil k)
  | cons c r => exact ⟨c, r, rfl, natToStr_digits k c (by rw [hh]; exact List.mem_cons_self c r)⟩

/-- `skipWs` does not touch a string whose head is not whitespace. -/
theorem skipWs_cons (c : Char) (l : List Char) (h : jsonWs c = false) :
    skipWs (c :: l) = c :: l := by
  simp [skipWs, List.dropWhile_cons, h]

/-- `dumpsV` output is nonempty and begins with a character that is not
whitespace and not `]`. -/
theorem dumpsV_head (v : Json) : ∃ c r, dumpsV v = c :: r ∧ jsonWs c = false ∧ c ≠ ']' := by
  cases v with
  | null => exact ⟨'n', _, rfl, by decide, by decide⟩
  | bool b => cases b with
    | true => exact ⟨'t', _, rfl, by decide, by decide⟩
    | false => exact ⟨'f', _, rfl, by decide, by decide⟩
  | int n =>
    show ∃ c r, intToStr n = c :: r ∧ _
    unfold intToStr
    by_cases hn : n < 0
    · rw [if_pos hn]
      exact ⟨'-', _, rfl, by decide, by decide⟩
    · rw [if_neg hn]
      obtain ⟨c, r, hcr, hd⟩ := natToStr_head n.toNat
      obtain ⟨_, _, _, _, _, _, hws, hne, _, _, _⟩ := isDigitCh_facts c hd
      exact ⟨c, r, hcr, hws, hne⟩
  | str s => exact ⟨'\"', _, rfl, by decide, by decide⟩
  | arr xs => exact ⟨'[', _, rfl, by decide, by decide⟩
  | obj kvs => exact ⟨lcurly, _, rfl, by decide, by decide⟩

/-- A place where a JSON value may legally stop: end of input or one of
`,`, `]`, `}` (as produced by `json.dumps` between elements). -/
def stopTok (rest : List Char) : Prop :=
  rest = [] ∨ ∃ c r, rest = c :: r ∧ (c = ',' ∨ c = ']' ∨ c = rcurly)

/-- A stop token never starts with a digit. -/
theorem stopTok_headNot (rest : List Char) (h : stopTok rest) : headNot isDigitCh rest := by
  rcases h with rfl | ⟨c, r, rfl, hc | hc | hc⟩
  · exact Or.inl rfl
  all_goals subst hc
  · exact Or.inr ⟨_, _, rfl, by decide⟩
  · exact Or.inr ⟨_, _, rfl, by decide⟩
  · exact Or.inr ⟨_, _, rfl, by decide⟩

/-! Parse-step measures supplying the fuel bound for the value parser. -/
mutual
def jsteps : Json → Nat
  | .null => 1
  | .bool _ => 1
  | .int _ => 1
  | .str _ => 1
  | .arr xs => 1 + astepsJ xs
  | .obj kvs => 1 + ostepsJ kvs
def astepsJ : JArr → Nat
  | .anil => 1
  | .acons x .anil => 1 + jsteps x
  | .acons x tl => 1 + jsteps x + astepsJ tl
def ostepsJ : JObj → Nat
  | .onil => 1
  | .ocons _ v .onil => 1 + jsteps v
  | .ocons _ v tl => 1 + jsteps v + ostepsJ tl
end

/-- Leading whitespace is transparent to the value parser. -/
theorem parseVal_ws (f : Nat) (l : List Char) : parseVal f (' ' :: l) = parseVal f l := by
  cases f with
  | zero => rfl
  | succ f =>
    simp only [parseVal]
    rw [show skipWs (' ' :: l) = skipWs l by simp [skipWs, List.dropWhile_cons, jsonWs]]

/-- Leading whitespace is transparent to the item parser. -/
theorem parseItems_ws (f : Nat) (l : List Char) : parseItems f (' ' :: l) = parseItems f l := by
  cases f with
  | zero => rfl
  | succ f =>
    simp only [parseItems]
    rw [parseVal_ws]

/-- Leading whitespace is transparent to the member parser. -/
theorem parseMembers_ws (f : Nat) (l : List Char) :
    parseMembers f (' ' :: l) = parseMembers f l := by
  cases f with
  | zero => rfl
  | succ f =>
    simp only [parseMembers]
    rw [show skipWs (' ' :: l) = skipWs l by simp [skipWs, List.dropWhile_cons, jsonWs]]

/-- Integer literals round-trip through the value parser. -/
theorem pv_int (n : Int) (f : Nat) (rest : List Char) (hstop : stopTok rest) :
    parseVal (f+1) (dumpsV (.int n) ++ rest) = some (.int n, rest) := by
  have hlit := parseIntLit_intToStr n rest (stopTok_headNot rest hstop)
  show parseVal (f+1) (intToStr n ++ rest) = some (.int n, rest)
  by_cases hn : n < 0
  · have hsh : intToStr n = '-' :: natToStr n.natAbs := by unfold intToStr; rw [if_pos hn]
    rw [hsh] at hlit ⊢
    simp only [List.cons_append] at hlit ⊢
    have hred : parseVal (f+1) ('-' :: (natToStr n.natAbs ++ rest))
        = (parseIntLit ('-' :: (natToStr n.natAbs ++ rest))).map
            (fun p => (Json.int p.1, p.2)) := rfl
    rw [hred, hlit]
    rfl
  · have hsh : intToStr n = natToStr n.toNat := by unfold intToStr; rw [if_neg hn]
    rw [hsh] at hlit ⊢
    obtain ⟨c, r, hcr, hd⟩ := natToStr_head n.toNat
    obtain ⟨hq, hlc, hlb, hna, hta, hfa, hws, _, _, _, _⟩ := isDigitCh_facts c hd
    rw [hcr] at hlit ⊢
    simp only [List.cons_append] at hlit ⊢
    simp only [parseVal, skipWs_cons c _ hws]
    rw [if_neg hq, if_neg hlc, if_neg hlb]
    rw [if_neg (take_ne_of_head_ne c 'n' _ _ 3 hna)]
    rw [if_neg (take_ne_of_head_ne c 't' _ _ 3 hta)]
    rw [if_neg (take_ne_of_head_ne c 'f' _ _ 4 hfa)]
    rw [hlit]
    rfl

/-- String literals round-trip through the value parser. -/
theorem pv_str (s : String) (f : Nat) (rest : List Char) :
    parseVal (f+1) (dumpsV (.str s) ++ rest) = some (.str s, rest) := by
  have hb : dumpsV (.str s) ++ rest = '\"' :: (escapeStr s.toList ++ ('\"' :: rest)) := by
    show ('\"' :: escapeStr s.toList ++ ['\"']) ++ rest = _
    simp [List.append_assoc]
  rw [hb]
  have hred : ∀ R, parseVal (f+1) ('\"' :: R)
      = (parseStrBody R).map (fun p => (Json.str (String.mk p.1), p.2)) := fun R => rfl
  rw [hred, parseStrBody_escapeStr]
  simp [smk_toList]

mutual
/-- Every serialized value parses back to itself when the remainder begins
with a legal stop token. -/
theorem pv_round (v : Json) : ∀ (f : Nat) (rest : List Char),
    jsteps v ≤ f → stopTok rest →
    parseVal f (dumpsV v ++ rest) = some (v, rest) := by
  cases v with
  | null =>
    intro f rest hf _
    obtain ⟨f2, rfl⟩ : ∃ f2, f = f2 + 1 := ⟨f - 1, by simp [jsteps] at hf; omega⟩
    rfl
  | bool b =>
    intro f rest hf _
    obtain ⟨f2, rfl⟩ : ∃ f2, f = f2 + 1 := ⟨f - 1, by simp [jsteps] at hf; omega⟩
    cases b <;> rfl
  | int n =>
    intro f rest hf hstop
    obtain ⟨f2, rfl⟩ : ∃ f2, f = f2 + 1 := ⟨f - 1, by simp [jsteps] at hf; omega⟩
    exact pv_int n f2 rest hstop
  | str s =>
    intro f rest hf _
    obtain ⟨f2, rfl⟩ : ∃ f2, f = f2 + 1 := ⟨f - 1, by simp [jsteps] at hf; omega⟩
    exact pv_str s f2 rest
  | arr xs =>
    intro f rest hf hstop
    obtain ⟨f2, rfl⟩ : ∃ f2, f = f2 + 1 := ⟨f - 1, by simp [jsteps] at hf; omega⟩
    cases xs with
    | anil => rfl
    | acons x tl =>
      have hb : dumpsV (.arr (.acons x tl)) ++ rest
          = '[' :: (dumpsItems (.acons x tl) ++ (']' :: rest)) := by
        show ('[' :: dumpsItems (.acons x tl) ++ [']']) ++ rest = _
        simp [List.append_assoc]
      rw [hb]
      have hred : ∀ R, parseVal (f2+1) ('[' :: R)
          = (match skipWs R with
             | [] => none
             | c2 :: r2 =>
               if c2 = ']' then some (Json.arr .anil, r2)
               else (parseItems f2 (c2 :: r2)).map (fun p => (Json.arr p.1, p.2))) :=
        fun R => rfl
      rw [hred]
      obtain ⟨T, hT⟩ : ∃ T, dumpsItems (.acons x tl) = dumpsV x ++ T := by
        cases tl with
        | anil => exact ⟨[], by simp [dumpsItems]⟩
        | acons y tl2 => exact ⟨',' :: ' ' :: dumpsItems (.acons y tl2), rfl⟩
      obtain ⟨c, r, hcr, hws, hrb⟩ := dumpsV_head x
      have hIn : dumpsItems (.acons x tl) ++ (']' :: rest) = c :: (r ++ T ++ (']' :: rest)) := by
        rw [hT, hcr]
        simp [List.append_assoc]
      rw [hIn]
      simp only [skipWs_cons c _ hws]
      rw [if_neg hrb]
      rw [hIn.symm]
      rw [pi_round (.acons x tl) (fun h => JArr.noConfusion h) f2 rest
        (by simp [jsteps, astepsJ] at hf ⊢; omega) hstop]
      rfl
  | obj kvs =>
    intro f rest hf hstop
    obtain ⟨f2, rfl⟩ : ∃ f2, f = f2 + 1 := ⟨f - 1, by simp [jsteps] at hf; omega⟩
    cases kvs with
    | onil => rfl
    | ocons k v tl =>
      have hb : dumpsV (.obj (.ocons k v tl)) ++ rest
          = lcurly :: (dumpsMembers (.ocons k v tl) ++ (rcurly :: rest)) := by
        show (lcurly :: dumpsMembers (.ocons k v tl) ++ [rcurly]) ++ rest = _
        simp [List.append_assoc]
      rw [hb]
      have hred : ∀ R, parseVal (f2+1) (lcurly :: R)
          = (match skipWs R with
             | [] => none
             | c2 :: r2 =>
               if c2 = rcurly then some (Json.obj .onil, r2)
               else (parseMembers f2 (c2 :: r2)).map (fun p => (Json.obj p.1, p.2))) :=
        fun R => rfl
      rw [hred]
      obtain ⟨R2, hR2⟩ : ∃ R2, dumpsMembers (.ocons k v tl) = '\"' :: R2 := by
        cases tl with
        | onil => exact ⟨_, rfl⟩
        | ocons k2 v2 tl2 => exact ⟨_, rfl⟩
      have hIn : dumpsMembers (.ocons k v tl) ++ (rcurly :: rest)
          = '\"' :: (R2 ++ (rcurly :: rest)) := by
        rw [hR2]
        simp
      rw [hIn]
      simp only [skipWs_cons '\"' _ (by decide)]
      rw [if_neg (by decide : ¬ ('\"' : Char) = rcurly)]
      rw [hIn.symm]
      rw [po_round (.ocons k v tl) (fun h => JObj.noConfusion h) f2 rest
        (by simp [jsteps, ostepsJ] at hf ⊢; omega) hstop]
      rfl
termination_by jsteps v
decreasing_by
  all_goals simp [jsteps, astepsJ, ostepsJ] <;> omega

/-- Serialized array items parse back to the array, consuming the closing
bracket. -/
theorem pi_round (xs : JArr) : xs ≠ .anil → ∀ (f : Nat) (rest : List Char),
    astepsJ xs ≤ f → stopTok rest →
    parseItems f (dumpsItems xs ++ ']' :: rest) = some (xs, rest) := by
  cases xs with
  | anil => intro h; exact absurd rfl h
  | acons x tl =>
    intro _ f rest hf hstop
    obtain ⟨f2, rfl⟩ : ∃ f2, f = f2 + 1 := ⟨f - 1, by cases tl <;> simp [astepsJ] at hf <;> omega⟩
    cases tl with
    | anil =>
      have hx := pv_round x f2 (']' :: rest)
        (by simp [astepsJ] at hf; omega)
        (Or.inr ⟨']', rest, rfl, Or.inr (Or.inl rfl)⟩)
      show parseItems (f2+1) (dumpsV x ++ ']' :: rest) = some (.acons x .anil, rest)
      simp only [parseItems, hx, skipWs_cons ']' _ (by decide)]
      rw [if_neg (by decide : ¬ (']' : Char) = ',')]
      simp only [if_true]
    | acons y tl2 =>
      have hsh : dumpsItems (.acons x (.acons y tl2)) ++ ']' :: rest
          = dumpsV x ++ (',' :: ' ' :: (dumpsItems (.acons y tl2) ++ ']' :: rest)) := by
        show (dumpsV x ++ ',' :: ' ' :: dumpsItems (.acons y tl2)) ++ ']' :: rest = _
        simp [List.append_assoc]
      rw [hsh]
      have hx := pv_round x f2 (',' :: ' ' :: (dumpsItems (.acons y tl2) ++ ']' :: rest))
        (by simp [astepsJ] at hf; omega)
        (Or.inr ⟨',', _, rfl, Or.inl rfl⟩)
      simp only [parseItems, hx, skipWs_cons ',' _ (by decide)]
      rw [parseItems_ws]
      rw [pi_round (.acons y tl2) (fun h => JArr.noConfusion h) f2 rest
        (by simp [astepsJ] at hf ⊢; omega) hstop]
      rfl
termination_by astepsJ xs
decreasing_by
  all_goals simp [jsteps, astepsJ, ostepsJ] <;> omega

/-- Serialized object members parse back to the object, consuming the
closing brace. -/
theorem po_round (kvs : JObj) : kvs ≠ .onil → ∀ (f : Nat) (rest : List Char),
    ostepsJ kvs ≤ f → stopTok rest →
    parseMembers f (dumpsMembers kvs ++ rcurly :: rest) = some (kvs, rest) := by
  cases kvs with
  | onil => intro h; exact absurd rfl h
  | ocons k v tl =>
    intro _ f rest hf hstop
    obtain ⟨f2, rfl⟩ : ∃ f2, f = f2 + 1 := ⟨f - 1, by cases tl <;> simp [ostepsJ] at hf <;> omega⟩
    cases tl with
    | onil =>
      have hsh : dumpsMembers (.ocons k v .onil) ++ rcurly :: rest
          = '\"' :: (escapeStr k.toList ++ ('\"' :: (':' :: ' ' :: (dumpsV v ++ (rcurly :: rest))))) := by
        show (dumpStr k ++ ':' :: ' ' :: dumpsV v) ++ rcurly :: rest = _
        show (('\"' :: escapeStr k.toList ++ ['\"']) ++ ':' :: ' ' :: dumpsV v) ++ rcurly :: rest = _
        simp [List.append_assoc]
      rw [hsh]
      have hv := pv_round v f2 (rcurly :: rest)
        (by simp [ostepsJ] at hf; omega)
        (Or.inr ⟨rcurly, rest, rfl, Or.inr (Or.inr rfl)⟩)
      have hred : ∀ R, parseMembers (f2+1) ('\"' :: R)
          = (match parseStrBody R with
             | none => none
             | some (kk, r2) =>
               match skipWs r2 with
               | [] => none
               | c2 :: r3 =>
                 if c2 = ':' then
                   match parseVal f2 r3 with
                   | none => none
                   | some (vv, r4) =>
                     match skipWs r4 with
                     | [] => none
                     | c3 :: r5 =>
                       if c3 = ',' then
                         (parseMembers f2 r5).map fun p => (.ocons (String.mk kk) vv p.1, p.2)
                       else if c3 = rcurly then some (.ocons (String.mk kk) vv .onil, r5)
                       else none
                 else none) := fun R => rfl
      rw [hred, parseStrBody_escapeStr]
      simp only [skipWs_cons ':' _ (by decide)]
      rw [parseVal_ws, hv]
      simp only [skipWs_cons rcurly _ (by decide), if_true]
      rw [smk_toList, if_neg (by decide : ¬ rcurly = ',')]
    | ocons k2 v2 tl2 =>
      have hsh : dumpsMembers (.ocons k v (.ocons k2 v2 tl2)) ++ rcurly :: rest
          = '\"' :: (escapeStr k.toList ++ ('\"' :: (':' :: ' ' :: (dumpsV v ++
              (',' :: ' ' :: (dumpsMembers (.ocons k2 v2 tl2) ++ rcurly :: rest)))))) := by
        show (dumpStr k ++ ':' :: ' ' :: dumpsV v ++ ',' :: ' ' :: dumpsMembers (.ocons k2 v2 tl2))
            ++ rcurly :: rest = _
        show (('\"' :: escapeStr k.toList ++ ['\"']) ++ ':' :: ' ' :: dumpsV v
            ++ ',' :: ' ' :: dumpsMembers (.ocons k2 v2 tl2)) ++ rcurly :: rest = _
        simp [List.append_assoc]
      rw [hsh]
      have hv := pv_round v f2 (',' :: ' ' :: (dumpsMembers (.ocons k2 v2 tl2) ++ rcurly :: rest))
        (by simp [ostepsJ] at hf; omega)
        (Or.inr ⟨',', _, rfl, Or.inl rfl⟩)
      have hred : ∀ R, parseMembers (f2+1) ('\"' :: R)
          = (match parseStrBody R with
             | none => none
             | some (kk, r2) =>
               match skipWs r2 with
               | [] => none
               | c2 :: r3 =>
                 if c2 = ':' then
                   match parseVal f2 r3 with
                   | none => none
                   | some (vv, r4) =>
                     match skipWs r4 with
                     | [] => none
                     | c3 :: r5 =>
                       if c3 = ',' then
                         (parseMembers f2 r5).map fun p => (.ocons (String.mk kk) vv p.1, p.2)
                       else if c3 = rcurly then some (.ocons (String.mk kk) vv .onil, r5)
                       else none
                 else none) := fun R => rfl
      rw [hred, parseStrBody_escapeStr]
      simp only [skipWs_cons ':' _ (by decide)]
      rw [parseVal_ws, hv]
      simp only [skipWs_cons ',' _ (by decide)]
      rw [parseMembers_ws]
      rw [po_round (.ocons k2 v2 tl2) (fun h => JObj.noConfusion h) f2 rest
        (by simp [ostepsJ] at hf ⊢; omega) hstop]
      simp [smk_toList]
termination_by ostepsJ kvs
decreasing_by
  all_goals simp [jsteps, astepsJ, ostepsJ] <;> omega
end

/-- A rendered integer is nonempty. -/
theorem intToStr_ne_nil (n : Int) : intToStr n ≠ [] := by
  unfold intToStr
  split
  · intro h; exact List.noConfusion h
  · exact natToStr_ne_nil _

mutual
/-- The parser step count of a value is bounded by its rendered length
plus one. -/
theorem jsteps_le (v : Json) : jsteps v ≤ (dumpsV v).length + 1 := by
  cases v with
  | null => simp [jsteps, dumpsV]
  | bool b => cases b <;> simp [jsteps, dumpsV]
  | int n =>
    simp only [jsteps, dumpsV]
    omega
  | str s => simp only [jsteps]; omega
  | arr xs =>
    have h := astepsJ_le xs
    simp only [jsteps, dumpsV, List.length_cons, List.length_append, List.length_singleton]
    omega
  | obj kvs =>
    have h := ostepsJ_le kvs
    simp only [jsteps, dumpsV, List.length_cons, List.length_append, List.length_singleton]
    omega
termination_by jsteps v
decreasing_by
  all_goals simp [jsteps, astepsJ, ostepsJ] <;> omega

/-- The item-parser step count of an array is bounded by its rendered
length plus two. -/
theorem astepsJ_le (xs : JArr) : astepsJ xs ≤ (dumpsItems xs).length + 2 := by
  cases xs with
  | anil => simp [astepsJ, dumpsItems]
  | acons x tl =>
    cases tl with
    | anil =>
      have hx := jsteps_le x
      simp only [astepsJ, dumpsItems]
      omega
    | acons y tl2 =>
      have hx := jsteps_le x
      have ht := astepsJ_le (.acons y tl2)
      simp only [astepsJ, dumpsItems, List.length_append, List.length_cons] at ht ⊢
      omega
termination_by astepsJ xs
decreasing_by
  all_goals simp [jsteps, astepsJ, ostepsJ] <;> omega

/-- The member-parser step count of an object is bounded by its rendered
length plus two. -/
theorem ostepsJ_le (kvs : JObj) : ostepsJ kvs ≤ (dumpsMembers kvs).length + 2 := by
  cases kvs with
  | onil => simp [ostepsJ, dumpsMembers]
  | ocons k v tl =>
    cases tl with
    | onil =>
      have hv := jsteps_le v
      simp only [ostepsJ, dumpsMembers, List.length_append, List.length_cons]
      omega
    | ocons k2 v2 tl2 =>
      have hv := jsteps_le v
      have ht := ostepsJ_le (.ocons k2 v2 tl2)
      simp only [ostepsJ, dumpsMembers, List.length_append, List.length_cons] at ht ⊢
      omega
termination_by ostepsJ kvs
decreasing_by
  all_goals simp [jsteps, astepsJ, ostepsJ] <;> omega
end

/-- `json.loads` inverts `json.dumps` on every JSON value. -/
theorem jsonLoads_dumpsV (v : Json) : jsonLoads (dumpsV v) = some v := by
  have h := pv_round v ((dumpsV v).length + 1) []
    (by have := jsteps_le v; omega) (Or.inl rfl)
  rw [List.append_nil] at h
  unfold jsonLoads
  rw [h]
  rfl

/-- A digit is not Python whitespace. -/
theorem pyWs_of_digit (c : Char) (h : isDigitCh c = true) : pyWs c = false := by
  obtain ⟨hl, hr⟩ := isDigitCh_val c h
  have h1 : c ≠ ' ' := charNe c ' ' (by rw [show (' ').toNat = 32 from rfl]; omega)
  have h2 : c ≠ '\t' := charNe c '\t' (by rw [show ('\t').toNat = 9 from rfl]; omega)
  have h3 : c ≠ '\n' := charNe c '\n' (by rw [show ('\n').toNat = 10 from rfl]; omega)
  have h4 : c ≠ '\r' := charNe c '\r' (by rw [show ('\r').toNat = 13 from rfl]; omega)
  have h5 : c ≠ '\x0b' := charNe c '\x0b' (by rw [show ('\x0b').toNat = 11 from rfl]; omega)
  have h6 : c ≠ '\x0c' := charNe c '\x0c' (by rw [show ('\x0c').toNat = 12 from rfl]; omega)
  simp [pyWs, h1, h2, h3, h4, h5, h6]

/-- `split(sep, 1)` finds nothing when the separator's first character is
absent. -/
theorem splitOnce_head_none (c0 : Char) (s0 : List Char) :
    ∀ (l : List Char), c0 ∉ l → splitOnce (c0 :: s0) l = none := by
  intro l
  induction l with
  | nil => intro _; rfl
  | cons c t ih =>
    intro h
    have hc : c0 ≠ c := fun hce => h (hce ▸ List.mem_cons_self c t)
    have hnp : ¬ ((c0 :: s0).isPrefixOf (c :: t) = true) := by
      intro hp
      obtain ⟨u, hu⟩ := List.isPrefixOf_iff_prefix.mp hp
      exact hc (by simpa using congrArg List.head? hu)
    simp only [splitOnce, if_neg hnp, ih (fun hm => h (List.mem_cons_of_mem c hm)),
      Option.map_none']

/-- `split(sep, 1)` on `a ++ sep ++ b` splits exactly there when the
separator's first character does not occur in `a`. -/
theorem splitOnce_head_app (c0 : Char) (s0 : List Char) (a b : List Char) (ha : c0 ∉ a) :
    splitOnce (c0 :: s0) (a ++ (c0 :: s0) ++ b) = some (a, b) := by
  induction a with
  | nil =>
    show splitOnce (c0 :: s0) ([] ++ (c0 :: s0) ++ b) = some ([], b)
    have hsp : (c0 :: s0).isPrefixOf ((c0 :: s0) ++ b) = true :=
      List.isPrefixOf_iff_prefix.mpr ⟨b, rfl⟩
    rw [show ([] : List Char) ++ (c0 :: s0) ++ b = c0 :: (s0 ++ b) from by simp]
    simp only [splitOnce]
    rw [if_pos (by rw [show c0 :: (s0 ++ b) = (c0 :: s0) ++ b from rfl]; exact hsp)]
    rw [show c0 :: (s0 ++ b) = (c0 :: s0) ++ b from rfl, List.drop_left]
  | cons c t ih =>
    have hc : c0 ≠ c := fun hce => ha (hce ▸ List.mem_cons_self c t)
    have hnp : ¬ ((c0 :: s0).isPrefixOf (c :: (t ++ (c0 :: s0) ++ b)) = true) := by
      intro hp
      obtain ⟨u, hu⟩ := List.isPrefixOf_iff_prefix.mp hp
      exact hc (by simpa using congrArg List.head? hu)
    rw [show (c :: t) ++ (c0 :: s0) ++ b = c :: (t ++ (c0 :: s0) ++ b) from by simp]
    rw [show splitOnce (c0 :: s0) (c :: (t ++ (c0 :: s0) ++ b))
        = if (c0 :: s0).isPrefixOf (c :: (t ++ (c0 :: s0) ++ b)) = true
          then some ([], (c :: (t ++ (c0 :: s0) ++ b)).drop (c0 :: s0).length)
          else (splitOnce (c0 :: s0) (t ++ (c0 :: s0) ++ b)).map fun p => (c :: p.1, p.2)
        from rfl]
    rw [if_neg hnp, ih (fun hm => ha (List.mem_cons_of_mem c hm))]
    rfl

/-- A frame header followed by the blank line splits into header, empty
middle, and body. -/
theorem splitTwice_frame (a b : List Char) (ha : '\r' ∉ a) :
    splitTwice crlf (a ++ crlf ++ crlf ++ b) = some (a, [], b) := by
  have h1 : splitOnce crlf (a ++ crlf ++ (crlf ++ b)) = some (a, crlf ++ b) := by
    have := splitOnce_head_app '\r' ['\n'] a (crlf ++ b) ha
    simpa [crlf] using this
  have h2 : splitOnce crlf (crlf ++ b) = some ([], b) := by
    have := splitOnce_head_app '\r' ['\n'] [] b (by simp)
    simpa [crlf] using this
  have hsh : a ++ crlf ++ crlf ++ b = a ++ crlf ++ (crlf ++ b) := by simp
  rw [hsh]
  show (splitOnce crlf (a ++ crlf ++ (crlf ++ b))).bind
      (fun p => (splitOnce crlf p.2).map fun q => (p.1, q.1, q.2)) = some (a, [], b)
  rw [h1]
  show (splitOnce crlf (crlf ++ b)).map (fun q => (a, q.1, q.2)) = some (a, [], b)
  rw [h2]
  rfl

/-- Splitting on `":"` when there is exactly one colon. -/
theorem splitAllColonF_two (f : Nat) (a b : List Char) (ha : ':' ∉ a) (hb : ':' ∉ b) :
    splitAllColonF (f+2) (a ++ [':'] ++ b) = [a, b] := by
  simp only [splitAllColonF, splitOnce_head_app ':' [] a b ha, splitOnce_head_none ':' [] b hb]

/-- `dropWhile` of Python whitespace is the identity on digit strings. -/
theorem dropWhile_pyWs_digits (l : List Char) (h : ∀ c ∈ l, isDigitCh c = true) :
    l.dropWhile pyWs = l := by
  cases l with
  | nil => rfl
  | cons c r =>
    rw [List.dropWhile_cons, if_neg (by simp [pyWs_of_digit c (h c (List.mem_cons_self c r))])]

/-- `str.strip()` of a space followed by digits is the digits. -/
theorem pyStrip_space_digits (n : Nat) : pyStrip (' ' :: natToStr n) = natToStr n := by
  unfold pyStrip
  rw [List.dropWhile_cons, if_pos (by decide)]
  rw [dropWhile_pyWs_digits _ (natToStr_digits n)]
  rw [dropWhile_pyWs_digits _ (fun c hc => natToStr_digits n c (List.mem_reverse.mp hc))]
  rw [List.reverse_reverse]

/-- Digits are not the plus sign. -/
theorem isDigitCh_ne_plus (c : Char) (h : isDigitCh c = true) : ¬ c = '+' := by
  obtain ⟨hl, hr⟩ := isDigitCh_val c h
  exact charNe c '+' (by rw [show ('+').toNat = 43 from rfl]; omega)

/-- Python `int` on a rendered natural number. -/
theorem pyIntOfStr_natToStr (n : Nat) : pyIntOfStr (natToStr n) = some (n : Int) := by
  obtain ⟨c, r, hcr, hcd⟩ := natToStr_head n
  have hpn : parseNat (natToStr n) = some (n, []) := by
    have := parseNat_natToStr n [] (Or.inl rfl)
    simpa using this
  rw [hcr] at hpn ⊢
  simp only [pyIntOfStr]
  rw [if_neg (isDigitCh_ne_minus c hcd), if_neg (isDigitCh_ne_plus c hcd), hpn]
  rfl

/-- `parse_header` accepts the exact header `serislise_message` writes. -/
theorem parse_header_ok (n : Nat) :
    parse_header ("Content-Length: ".toList ++ natToStr n) = .ok (n : Int) := by
  have hK : (':' : Char) ∉ "Content-Length".toList := by decide
  have hb : (':' : Char) ∉ ' ' :: natToStr n := by
    intro hm
    rcases List.mem_cons.mp hm with h | h
    · exact absurd h.symm (by decide)
    · exact (isDigitCh_facts _ (natToStr_digits n _ h)).2.2.2.2.2.2.2.2.2.1 rfl
  have hsh : "Content-Length: ".toList ++ natToStr n
      = "Content-Length".toList ++ [':'] ++ (' ' :: natToStr n) := by
    rw [show "Content-Length: ".toList = "Content-Length".toList ++ [':', ' '] from by decide]
    simp
  unfold parse_header splitAllColon
  rw [hsh]
  obtain ⟨g, hg⟩ : ∃ g, ("Content-Length".toList ++ [':'] ++ (' ' :: natToStr n)).length + 1
      = g + 2 := ⟨("Content-Length".toList ++ [':'] ++ (' ' :: natToStr n)).length - 1, by
        simp [List.length_append]⟩
  rw [hg, splitAllColonF_two g _ _ hK hb]
  simp only [pyStrip_space_digits, pyIntOfStr_natToStr]
  rw [if_pos (by decide : pyStrip ("Content-Length".toList) = "Content-Length".toList)]

/-- A serialized value is never the empty string. -/
theorem dumpsV_ne_nil (v : Json) : dumpsV v ≠ [] := by
  cases v with
  | null => simp [dumpsV]
  | bool b => cases b <;> simp [dumpsV]
  | int n => exact intToStr_ne_nil n
  | str s => simp [dumpsV, dumpStr]
  | arr xs => simp [dumpsV]
  | obj kvs => simp [dumpsV]

/-- The header written by `serislise_message` contains no carriage
return. -/
theorem hdr_no_cr (n : Nat) : '\r' ∉ "Content-Length: ".toList ++ natToStr n := by
  intro hm
  rcases List.mem_append.mp hm with h | h
  · exact absurd h (by decide)
  · exact absurd (natToStr_digits n _ h) (by decide)

/-- One full frame fed to `receive_message` with an empty carried buffer
decodes to exactly the framed message and an empty residual. -/
theorem receive_message_frame (m : Json) :
    receive_message [] (serislise_message m) = .ok [m] [] := by
  have hne := dumpsV_ne_nil m
  have hs : serislise_message m
      = ("Content-Length: ".toList ++ natToStr (dumpsV m).length) ++ crlf ++ crlf ++ dumpsV m := by
    unfold serislise_message
    simp [List.append_assoc]
  have hpre : ("Content-Length".toList).isPrefixOf (serislise_message m) = true := by
    rw [hs]
    apply List.isPrefixOf_iff_prefix.mpr
    refine ⟨": ".toList ++ natToStr (dumpsV m).length ++ crlf ++ crlf ++ dumpsV m, ?_⟩
    rw [show "Content-Length: ".toList = "Content-Length".toList ++ ": ".toList from by decide]
    simp
  simp only [receive_message, List.nil_append]
  rw [if_pos hpre]
  obtain ⟨g, hg⟩ : ∃ g, (serislise_message m).length = g + 1 := by
    refine ⟨(serislise_message m).length - 1, ?_⟩
    rw [hs]
    simp [List.length_append]
  rw [hg]
  simp only [recvLoop]
  rw [hs, splitTwice_frame _ _ (hdr_no_cr (dumpsV m).length)]
  simp only [parse_header_ok (dumpsV m).length]
  rw [if_neg (by have : 0 < (dumpsV m).length := List.length_pos.mpr hne; omega)]
  rw [if_neg (by simp)]
  rw [show ((dumpsV m).length : Int).toNat = (dumpsV m).length from by simp]
  rw [List.take_length, jsonLoads_dumpsV, List.drop_length]
  obtain ⟨g2, hg2⟩ : ∃ g2, g = g2 + 1 := by
    refine ⟨g - 1, ?_⟩
    have : 2 ≤ (serislise_message m).length := by
      rw [hs]
      simp [List.length_append]
    omega
  rw [hg2]
  rfl

/-- C3: For every well-formed message (a JSON object with `seq` and `type`
fields), feeding the bytes produced by the framing encoder
`serislise_message` to the stream decoder `receive_message` (with an empty
carried buffer) yields exactly the single message back, with empty
residual buffer: decode(encode(m)) == m. -/
theorem c3_decode_encode_roundtrip (kvs : JObj)
    (hseq : kvs.hasKey "seq" = true) (htyp : kvs.hasKey "type" = true) :
    receive_message [] (serislise_message (.obj kvs)) = .ok [.obj kvs] [] :=
  receive_message_frame (.obj kvs)

/-- C3 witness: the round trip evaluated on a concrete request message. -/
theorem c3_decode_encode_roundtrip_witness :
    (jobj [("seq", .int 1), ("type", .str "request")]).hasKey "seq" = true ∧
    (jobj [("seq", .int 1), ("type", .str "request")]).hasKey "type" = true ∧
    receive_message [] (serislise_message
        (.obj (jobj [("seq", .int 1), ("type", .str "request")])))
      = .ok [.obj (jobj [("seq", .int 1), ("type", .str "request")])] [] :=
  ⟨by decide, by decide, c3_decode_encode_roundtrip _ (by decide) (by decide)⟩

/-! ### Decoder resumption (C4)

A serialized byte stream of framed messages is the concatenation of
`serislise_message` over a list of messages. -/

/-- Concatenation of frames. -/
def streamOf : List Json → List Char
  | [] => []
  | m :: tl => serislise_message m ++ streamOf tl

/-- The header written by `serislise_message` contains no line feed. -/
theorem hdr_no_lf (n : Nat) : '\n' ∉ "Content-Length: ".toList ++ natToStr n := by
  intro hm
  rcases List.mem_append.mp hm with h | h
  · exact absurd h (by decide)
  · exact absurd (natToStr_digits n _ h) (by decide)

/-- A string without a line feed contains no `"\r\n"` separator. -/
theorem splitOnce_crlf_none_no_lf (l : List Char) (h : '\n' ∉ l) :
    splitOnce crlf l = none := by
  cases hs : splitOnce crlf l with
  | none => rfl
  | some p =>
    have he := splitOnce_eq crlf l p hs
    refine absurd ?_ h
    rw [he]
    simp [crlf]

/-- `split("\r\n", 1)` on `a ++ crlf ++ b` splits exactly there when `a`
has no carriage return. -/
theorem splitOnce_crlf_app (a b : List Char) (ha : '\r' ∉ a) :
    splitOnce crlf (a ++ crlf ++ b) = some (a, b) := by
  have := splitOnce_head_app '\r' ['\n'] a b ha
  simpa [crlf] using this

/-- The encoder decomposed at the assertion's prefix. -/
theorem serislise_decomp (m : Json) : serislise_message m
    = "Content-Length".toList
      ++ (": ".toList ++ natToStr (dumpsV m).length ++ crlf ++ crlf ++ dumpsV m) := by
  unfold serislise_message
  rw [show "Content-Length: ".toList = "Content-Length".toList ++ ": ".toList from by decide]
  simp [List.append_assoc]

/-- A frame is at least one character long. -/
theorem serislise_length_pos (m : Json) : 1 ≤ (serislise_message m).length := by
  rw [serislise_decomp]
  simp [List.length_append]

/-- Decoding one complete frame at the head of the buffer yields its
message and continues on the tail. -/
theorem recvLoop_step (m : Json) (t : List Char) (f : Nat) :
    recvLoop (f+1) (serislise_message m ++ t) = prependMsg m (recvLoop f t) := by
  have hne := dumpsV_ne_nil m
  have hs : serislise_message m ++ t
      = ("Content-Length: ".toList ++ natToStr (dumpsV m).length) ++ crlf ++ crlf
        ++ (dumpsV m ++ t) := by
    unfold serislise_message
    simp [List.append_assoc]
  simp only [recvLoop]
  rw [hs, splitTwice_frame _ _ (hdr_no_cr (dumpsV m).length)]
  simp only [parse_header_ok (dumpsV m).length]
  rw [if_neg (by have : 0 < (dumpsV m).length := List.length_pos.mpr hne; omega)]
  rw [if_neg (by
    rw [show ((dumpsV m).length : Int).toNat = (dumpsV m).length from by simp]
    simp only [List.length_append]
    omega)]
  rw [show ((dumpsV m).length : Int).toNat = (dumpsV m).length from by simp]
  rw [List.take_left, jsonLoads_dumpsV, List.drop_left]

/-- Length of the assertion prefix. -/
theorem CL_len : ("Content-Length: ".toList).length = 16 := by decide

/-- A proper prefix of a frame is inert: `receive_message`'s loop breaks at
once and keeps the buffer untouched (with any positive fuel). -/
theorem recvLoop_partial (m : Json) (j g : Nat) (hj : j < (serislise_message m).length) :
    recvLoop (g+1) ((serislise_message m).take j) = .ok [] ((serislise_message m).take j) := by
  have hne := dumpsV_ne_nil m
  have hs : serislise_message m
      = ("Content-Length: ".toList ++ natToStr (dumpsV m).length) ++ crlf ++ crlf
        ++ dumpsV m := by
    unfold serislise_message
    simp [List.append_assoc]
  have hAcr := hdr_no_cr (dumpsV m).length
  have hlen : (serislise_message m).length
      = 20 + (natToStr (dumpsV m).length).length + (dumpsV m).length := by
    rw [hs]
    simp only [List.length_append, CL_len, crlf, List.length_cons, List.length_nil]
    omega
  by_cases h1 : j ≤ 17 + (natToStr (dumpsV m).length).length
  · have hpre : (serislise_message m).take j
        = (("Content-Length: ".toList ++ natToStr (dumpsV m).length) ++ ['\r']).take j := by
      rw [hs, show ("Content-Length: ".toList ++ natToStr (dumpsV m).length) ++ crlf ++ crlf
            ++ dumpsV m
          = (("Content-Length: ".toList ++ natToStr (dumpsV m).length) ++ ['\r'])
            ++ ('\n' :: '\r' :: '\n' :: dumpsV m) from by simp [crlf]]
      rw [List.take_append_of_le_length (by
        simp only [List.length_append, CL_len, List.length_cons, List.length_nil]
        omega)]
    have hnl : '\n' ∉ (serislise_message m).take j := by
      rw [hpre]
      intro hm2
      have hmem := List.take_subset j _ hm2
      rcases List.mem_append.mp hmem with h | h
      · exact hdr_no_lf (dumpsV m).length h
      · simp at h
    have hsp : splitTwice crlf ((serislise_message m).take j) = none := by
      unfold splitTwice
      rw [splitOnce_crlf_none_no_lf _ hnl]
      rfl
    simp only [recvLoop, hsp]
  · by_cases h2 : j = 18 + (natToStr (dumpsV m).length).length
    · have hpj : (serislise_message m).take j
          = ("Content-Length: ".toList ++ natToStr (dumpsV m).length) ++ crlf := by
        rw [hs, show ("Content-Length: ".toList ++ natToStr (dumpsV m).length) ++ crlf ++ crlf
              ++ dumpsV m
            = (("Content-Length: ".toList ++ natToStr (dumpsV m).length) ++ crlf)
              ++ (crlf ++ dumpsV m) from by simp]
        rw [show j = (("Content-Length: ".toList ++ natToStr (dumpsV m).length) ++ crlf).length
          from by
            simp only [List.length_append, CL_len, crlf, List.length_cons, List.length_nil]
            omega]
        rw [List.take_left]
      have hsp : splitTwice crlf ((serislise_message m).take j) = none := by
        rw [hpj]
        have ha1 : splitOnce crlf
            (("Content-Length: ".toList ++ natToStr (dumpsV m).length) ++ crlf ++ [])
            = some (("Content-Length: ".toList ++ natToStr (dumpsV m).length), []) :=
          splitOnce_crlf_app _ [] hAcr
        rw [List.append_nil] at ha1
        unfold splitTwice
        rw [ha1]
        rfl
      simp only [recvLoop, hsp]
    · by_cases h3 : j = 19 + (natToStr (dumpsV m).length).length
      · have hpj : (serislise_message m).take j
            = ("Content-Length: ".toList ++ natToStr (dumpsV m).length) ++ crlf ++ ['\r'] := by
          rw [hs, show ("Content-Length: ".toList ++ natToStr (dumpsV m).length) ++ crlf ++ crlf
                ++ dumpsV m
              = (("Content-Length: ".toList ++ natToStr (dumpsV m).length) ++ crlf ++ ['\r'])
                ++ ('\n' :: dumpsV m) from by simp [crlf]]
          rw [show j = (("Content-Length: ".toList ++ natToStr (dumpsV m).length) ++ crlf
              ++ ['\r']).length from by
                simp only [List.length_append, CL_len, crlf, List.length_cons, List.length_nil]
                omega]
          rw [List.take_left]
        have hsp : splitTwice crlf ((serislise_message m).take j) = none := by
          rw [hpj]
          have ha1 : splitOnce crlf
              (("Content-Length: ".toList ++ natToStr (dumpsV m).length) ++ crlf ++ ['\r'])
              = some (("Content-Length: ".toList ++ natToStr (dumpsV m).length), ['\r']) :=
            splitOnce_crlf_app _ ['\r'] hAcr
          unfold splitTwice
          rw [ha1]
          simp only [Option.some_bind]
          rw [splitOnce_crlf_none_no_lf ['\r'] (by decide)]
          rfl
        simp only [recvLoop, hsp]
      · have h4 : 20 + (natToStr (dumpsV m).length).length ≤ j := by omega
        have hj4 : j - (20 + (natToStr (dumpsV m).length).length) < (dumpsV m).length := by
          omega
        have hpj : (serislise_message m).take j
            = ("Content-Length: ".toList ++ natToStr (dumpsV m).length) ++ crlf ++ crlf
              ++ (dumpsV m).take (j - (20 + (natToStr (dumpsV m).length).length)) := by
          rw [hs, show ("Content-Length: ".toList ++ natToStr (dumpsV m).length) ++ crlf ++ crlf
                ++ dumpsV m
              = (("Content-Length: ".toList ++ natToStr (dumpsV m).length) ++ crlf ++ crlf)
                ++ dumpsV m from by simp]
          rw [List.take_append_eq_append_take]
          rw [List.take_all_of_le (by
            simp only [List.length_append, CL_len, crlf, List.length_cons, List.length_nil]
            omega)]
          rw [show j - (("Content-Length: ".toList ++ natToStr (dumpsV m).length) ++ crlf
              ++ crlf).length
            = j - (20 + (natToStr (dumpsV m).length).length) from by
              simp only [List.length_append, CL_len, crlf, List.length_cons, List.length_nil]
              omega]
        simp only [recvLoop]
        rw [hpj, splitTwice_frame _ _ hAcr]
        simp only [parse_header_ok (dumpsV m).length]
        rw [if_neg (by have : 0 < (dumpsV m).length := List.length_pos.mpr hne; omega)]
        rw [if_pos (by
          rw [show ((dumpsV m).length : Int).toNat = (dumpsV m).length from by simp]
          simp only [List.length_take]
          omega)]

/-- Decoding a concatenation of complete frames followed by an inert tail
yields all the messages and leaves the tail as residual. -/
theorem recvLoop_stream : ∀ (ms : List Json) (p : List Char) (f : Nat),
    (∀ g, recvLoop (g+1) p = .ok [] p) →
    (streamOf ms ++ p).length < f →
    recvLoop f (streamOf ms ++ p) = .ok ms p := by
  intro ms
  induction ms with
  | nil =>
    intro p f hp hf
    obtain ⟨f2, rfl⟩ : ∃ f2, f = f2 + 1 := ⟨f - 1, by omega⟩
    simpa [streamOf] using hp f2
  | cons m tl ih =>
    intro p f hp hf
    obtain ⟨f2, rfl⟩ : ∃ f2, f = f2 + 1 := ⟨f - 1, by omega⟩
    have hshape : streamOf (m :: tl) ++ p = serislise_message m ++ (streamOf tl ++ p) := by
      simp [streamOf]
    rw [hshape, recvLoop_step m (streamOf tl ++ p) f2]
    rw [ih p f2 hp (by
      have h1 := serislise_length_pos m
      have h2 : (streamOf (m :: tl) ++ p).length
          = (serislise_message m).length + (streamOf tl ++ p).length := by
        rw [hshape]
        simp [List.length_append]
      omega)]
    rfl

/-- Homomorphism of frame concatenation. -/
theorem streamOf_append (a b : List Json) : streamOf (a ++ b) = streamOf a ++ streamOf b := by
  induction a with
  | nil => simp [streamOf]
  | cons m tl ih => simp [streamOf, ih]

/-- A nonempty stream passes the `Content-Length` assertion. -/
theorem stream_isPrefix (m : Json) (tl : List Json) :
    ("Content-Length".toList).isPrefixOf (streamOf (m :: tl)) = true := by
  apply List.isPrefixOf_iff_prefix.mpr
  rw [show streamOf (m :: tl) = serislise_message m ++ streamOf tl from rfl, serislise_decomp]
  refine ⟨": ".toList ++ natToStr (dumpsV m).length ++ crlf ++ crlf ++ dumpsV m
    ++ streamOf tl, ?_⟩
  simp

/-- Feeding a whole nonempty stream (carried plus chunk) decodes every
message with empty residual. -/
theorem receive_message_whole (c k : List Char) (m : Json) (tl : List Json)
    (h : c ++ k = streamOf (m :: tl)) :
    receive_message c k = .ok (m :: tl) [] := by
  simp only [receive_message]
  rw [h, if_pos (stream_isPrefix m tl)]
  rw [show streamOf (m :: tl) = streamOf (m :: tl) ++ [] from by simp]
  rw [recvLoop_stream (m :: tl) [] _ (fun g => rfl) (Nat.lt_succ_self _)]

/-- Every index strictly inside the stream falls inside some frame. -/
theorem stream_split : ∀ (ms : List Json) (i : Nat), i < (streamOf ms).length →
    ∃ ms1 m2 tl2 j, ms = ms1 ++ m2 :: tl2 ∧ i = (streamOf ms1).length + j ∧
      j < (serislise_message m2).length := by
  intro ms
  induction ms with
  | nil => intro i hi; simp [streamOf] at hi
  | cons m tl ih =>
    intro i hi
    by_cases hlt : i < (serislise_message m).length
    · exact ⟨[], m, tl, i, rfl, by simp [streamOf], hlt⟩
    · have hadd : (streamOf (m :: tl)).length
          = (serislise_message m).length + (streamOf tl).length := by
        simp [streamOf, List.length_append]
      obtain ⟨ms1, m2, tl2, j, hd1, hd2, hd3⟩ := ih (i - (serislise_message m).length) (by omega)
      refine ⟨m :: ms1, m2, tl2, j, by rw [show (m :: ms1) ++ m2 :: tl2
        = m :: (ms1 ++ m2 :: tl2) from rfl, ← hd1], ?_, hd3⟩
      have : (streamOf (m :: ms1)).length
          = (serislise_message m).length + (streamOf ms1).length := by
        simp [streamOf, List.length_append]
      omega

/-- Taking up to a point inside frame `m2` keeps the earlier frames whole
and a prefix of that frame. -/
theorem stream_take (ms1 : List Json) (m2 : Json) (tl2 : List Json) (j : Nat)
    (hj : j ≤ (serislise_message m2).length) :
    (streamOf (ms1 ++ m2 :: tl2)).take ((streamOf ms1).length + j)
      = streamOf ms1 ++ (serislise_message m2).take j := by
  rw [streamOf_append, List.take_append_eq_append_take]
  rw [List.take_all_of_le (by omega)]
  rw [show (streamOf ms1).length + j - (streamOf ms1).length = j from by omega]
  rw [show streamOf (m2 :: tl2) = serislise_message m2 ++ streamOf tl2 from rfl]
  rw [List.take_append_of_le_length hj]

/-- Dropping to a point inside frame `m2` leaves the rest of that frame
and the later frames. -/
theorem stream_drop (ms1 : List Json) (m2 : Json) (tl2 : List Json) (j : Nat)
    (hj : j ≤ (serislise_message m2).length) :
    (streamOf (ms1 ++ m2 :: tl2)).drop ((streamOf ms1).length + j)
      = (serislise_message m2).drop j ++ streamOf tl2 := by
  rw [streamOf_append, List.drop_append_eq_append_drop]
  rw [List.drop_eq_nil_of_le (by omega), List.nil_append]
  rw [show (streamOf ms1).length + j - (streamOf ms1).length = j from by omega]
  rw [show streamOf (m2 :: tl2) = serislise_message m2 ++ streamOf tl2 from rfl]
  rw [List.drop_append_of_le_length hj]

/-- A first-call buffer covering at least the assertion prefix passes the
assertion. -/
theorem buf_isPrefix (ms1 : List Json) (m2 : Json) (j : Nat)
    (h14 : 14 ≤ (streamOf ms1).length + j) (hj : j ≤ (serislise_message m2).length) :
    ("Content-Length".toList).isPrefixOf
      (streamOf ms1 ++ (serislise_message m2).take j) = true := by
  cases ms1 with
  | cons m tl =>
    apply List.isPrefixOf_iff_prefix.mpr
    rw [show streamOf (m :: tl) = serislise_message m ++ streamOf tl from rfl, serislise_decomp]
    refine ⟨": ".toList ++ natToStr (dumpsV m).length ++ crlf ++ crlf ++ dumpsV m
      ++ streamOf tl ++ (serislise_message m2).take j, ?_⟩
    simp
  | nil =>
    have h14' : 14 ≤ j := by simpa [streamOf] using h14
    apply List.isPrefixOf_iff_prefix.mpr
    rw [show streamOf [] ++ (serislise_message m2).take j = (serislise_message m2).take j
      from by simp [streamOf]]
    rw [serislise_decomp, List.take_append_eq_append_take]
    rw [List.take_all_of_le (by rw [show ("Content-Length".toList).length = 14 from by decide]; omega)]
    exact ⟨_, rfl⟩

/-- The first call of a split feed returns the complete frames before the
split point and keeps the partial frame as residual. -/
theorem receive_message_take (ms1 : List Json) (m2 : Json) (tl2 : List Json) (j : Nat)
    (hj : j < (serislise_message m2).length) (h14 : 14 ≤ (streamOf ms1).length + j) :
    receive_message [] ((streamOf (ms1 ++ m2 :: tl2)).take ((streamOf ms1).length + j))
      = .ok ms1 ((serislise_message m2).take j) := by
  rw [stream_take ms1 m2 tl2 j (le_of_lt hj)]
  simp only [receive_message, List.nil_append]
  rw [if_pos (buf_isPrefix ms1 m2 j h14 (le_of_lt hj))]
  exact recvLoop_stream ms1 ((serislise_message m2).take j) _
    (fun g => recvLoop_partial m2 j g hj) (Nat.lt_succ_self _)

/-- C4 counterexample: splitting the serialized stream of one framed
message at index 2 makes the first call raise `AssertionError` (the buffer
does not start with `Content-Length`), while feeding the whole stream at
once decodes the message — a read delivering only part of a frame can
fail instead of leaving the decoder state unchanged. -/
theorem c4_counterexample :
    receive_message [] ((streamOf [.obj (jobj [("seq", .int 1)])]).take 2)
      = .err [] .assertionError ∧
    receive_message [] (streamOf [.obj (jobj [("seq", .int 1)])])
      = .ok [.obj (jobj [("seq", .int 1)])] [] := ⟨by decide, by decide⟩

/-- C4 (amended): for every nonempty serialized stream of framed messages
and every split index that covers the 14-character `Content-Length`
assertion prefix and is strictly inside the stream, feeding the two halves
to the decoder (carrying the residual buffer between the calls) yields the
same message sequence as feeding the whole stream at once, and the partial
trailing frame of the first call does not advance decoder state. -/
theorem c4_amended_split_resume (ms : List Json) (i : Nat) (hne : ms ≠ [])
    (hi : 14 ≤ i) (hilt : i < (streamOf ms).length) :
    receive_message [] (streamOf ms) = .ok ms [] ∧
    ∃ ms1 r ms2,
      receive_message [] ((streamOf ms).take i) = .ok ms1 r ∧
      receive_message r ((streamOf ms).drop i) = .ok ms2 [] ∧
      ms1 ++ ms2 = ms := by
  obtain ⟨m0, tl0, rfl⟩ : ∃ a b, ms = a :: b := by
    cases ms with
    | nil => exact absurd rfl hne
    | cons a b => exact ⟨a, b, rfl⟩
  refine ⟨receive_message_whole [] _ m0 tl0 (by simp), ?_⟩
  obtain ⟨ms1, m2, tl2, j, hdec, hij, hjlt⟩ := stream_split (m0 :: tl0) i hilt
  refine ⟨ms1, (serislise_message m2).take j, m2 :: tl2, ?_, ?_, hdec.symm⟩
  · rw [hdec, hij]
    exact receive_message_take ms1 m2 tl2 j hjlt (by omega)
  · rw [hdec, hij, stream_drop ms1 m2 tl2 j (le_of_lt hjlt)]
    apply receive_message_whole _ _ m2 tl2
    rw [← List.append_assoc, List.take_append_drop]
    rfl

/-- C4 witness: the amended statement evaluated on a one-message stream
split at index 20 (inside the blank line of the frame). -/
theorem c4_amended_split_resume_witness :
    ([Json.obj (jobj [("seq", .int 5)])] ≠ ([] : List Json)) ∧ 14 ≤ 20 ∧
    20 < (streamOf [Json.obj (jobj [("seq", .int 5)])]).length ∧
    (receive_message [] (streamOf [Json.obj (jobj [("seq", .int 5)])])
        = .ok [Json.obj (jobj [("seq", .int 5)])] [] ∧
     ∃ ms1 r ms2,
       receive_message [] ((streamOf [Json.obj (jobj [("seq", .int 5)])]).take 20)
         = .ok ms1 r ∧
       receive_message r ((streamOf [Json.obj (jobj [("seq", .int 5)])]).drop 20)
         = .ok ms2 [] ∧
       ms1 ++ ms2 = [Json.obj (jobj [("seq", .int 5)])]) :=
  ⟨by decide, by decide, by decide,
    c4_amended_split_resume [Json.obj (jobj [("seq", .int 5)])] 20
      (by decide) (by decide) (by decide)⟩
